import Mathlib

/-!
Shallow embedding of the segmentation + reconciliation core of `src/pdf_tool.py`
(question segmenter, answer/modification extractor, reconciliation engine,
output validator, image associator), together with theorems checking the
natural-language specification against it.

Python data is modelled as follows: `str` becomes `String`, `int` becomes
`Nat`/`Int`, `dict` becomes an insertion-ordered association list with unique
keys (Python 3.7+ dict semantics), float coordinates become `Rat` (only
comparisons and one exact halving are performed on them), and raised
exceptions become `Except.error`.  In-place mutation of the caller's question
dicts by `combine` is made explicit by returning the post-state of the
question list alongside the result.
-/

namespace PdfTool

/-- Whitespace as accepted by Python's default `str.strip` and the regex class
for whitespace, restricted to the code points relevant to this program
(ASCII whitespace, NBSP, ideographic space). -/
def pyIsSpace (c : Char) : Bool :=
  c = ' ' || c = '\t' || c = '\n' || c = '\r' || c = '\x0b' || c = '\x0c' ||
  c = ' ' || c = '　'

/-- Drop matching characters from the end of a character list. -/
def dropEndWhile (p : Char → Bool) (l : List Char) : List Char :=
  (l.reverse.dropWhile p).reverse

/-- Python `str.strip()` with no argument: remove whitespace from both ends. -/
def pyStrip (s : String) : String :=
  ⟨dropEndWhile pyIsSpace (s.data.dropWhile pyIsSpace)⟩

/-- Python `str.strip('|')`: remove all leading and trailing pipe characters. -/
def pyStripPipe (s : String) : String :=
  ⟨dropEndWhile (· = '|') (s.data.dropWhile (· = '|'))⟩

/-- Decimal value of a digit character as Python's `int` conversion sees it:
ASCII digits and full-width digits (the decimal digits occurring in these
documents). -/
def pyDigitVal (c : Char) : Option Nat :=
  if '0' ≤ c ∧ c ≤ '9' then some (c.toNat - '0'.toNat)
  else if '０' ≤ c ∧ c ≤ '９' then some (c.toNat - '０'.toNat)
  else none

/-- Character-level test used by Python's `str.isdigit` and the regex digit
class (restricted to ASCII and full-width decimal digits). -/
def pyIsDigitChar (c : Char) : Bool := (pyDigitVal c).isSome

/-- Python `str.isdigit()`: non-empty and all characters are digits. -/
def pyIsDigit (s : String) : Bool := !s.data.isEmpty && s.data.all pyIsDigitChar

/-- Python `int(s)` on a digit string (also accepts full-width digits). -/
def pyToNat (s : String) : Nat :=
  s.data.foldl (fun a c => 10 * a + (pyDigitVal c).getD 0) 0

/-- The module-level `OPT_MAP` dictionary: private-use-area glyphs and
full-width letters mapped to the canonical option letters. -/
def OPT_MAP : List (String × String) :=
  [("", "A"), ("", "B"), ("", "C"), ("", "D"),
   ("Ａ", "A"), ("Ｂ", "B"), ("Ｃ", "C"), ("Ｄ", "D")]

/-- Python `OPT_MAP.get(v, v)`. -/
def optMapGet (v : String) : String := (OPT_MAP.lookup v).getD v

/-- Membership test `c in OPT_MAP` for a single character, returning the
mapped canonical letter when present. -/
def optMapChar (c : Char) : Option String := OPT_MAP.lookup ⟨[c]⟩

/-- Characters matched by the regex class of the answer fallback scan in
`_parse_answer_map`: ASCII `A`-`D` and full-width `Ａ`-`Ｄ` (the class does
not include the private-use-area glyphs). -/
def ansLetterChar (c : Char) : Bool :=
  ('A' ≤ c && c ≤ 'D') || ('Ａ' ≤ c && c ≤ 'Ｄ')

/-- Python `str.splitlines` (for the line terminators used here). -/
def splitlinesAux : List Char → List Char → List String
  | [], acc => if acc.isEmpty then [] else [⟨acc.reverse⟩]
  | '\r' :: '\n' :: rest, acc => (⟨acc.reverse⟩ : String) :: splitlinesAux rest []
  | '\r' :: rest, acc => (⟨acc.reverse⟩ : String) :: splitlinesAux rest []
  | '\n' :: rest, acc => (⟨acc.reverse⟩ : String) :: splitlinesAux rest []
  | c :: rest, acc => splitlinesAux rest (c :: acc)

/-- Python `md.splitlines()`. -/
def pySplitlines (s : String) : List String := splitlinesAux s.data []

/-- Whether a markdown line belongs to a table run:
`line.strip().startswith('|')`. -/
def startsPipe (l : String) : Bool := (pyStrip l).data.head? = some '|'

/-- Group consecutive table lines into maximal runs, skipping other lines;
this is the line-grouping loop of `_extract_md_tables`. -/
def groupRuns : List String → List (List String)
  | [] => []
  | l :: rest =>
    let gs := groupRuns rest
    if startsPipe l then
      match rest, gs with
      | r :: _, g :: gs' => if startsPipe r then (l :: g) :: gs' else [l] :: gs
      | _, _ => [l] :: gs
    else gs

/-- Python `s.split(sep)` for a single-character separator, over the
character list (computable by structural recursion). -/
def splitOnCharAux (sep : Char) : List Char → List Char → List String
  | [], acc => [⟨acc.reverse⟩]
  | c :: rest, acc =>
    if c = sep then (⟨acc.reverse⟩ : String) :: splitOnCharAux sep rest []
    else splitOnCharAux sep rest (c :: acc)

/-- Python `s.split('|')`. -/
def pySplitPipe (s : String) : List String := splitOnCharAux '|' s.data []

/-- Cell extraction for one table line:
`[c.strip() for c in line.strip().strip('|').split('|')]`. -/
def rowCells (line : String) : List String :=
  (pySplitPipe (pyStripPipe (pyStrip line))).map pyStrip

/-- The `_extract_md_tables` function: maximal runs of pipe-led lines,
each line split into trimmed cells. -/
def extract_md_tables (md : String) : List (List (List String)) :=
  (groupRuns (pySplitlines md)).map (·.map rowCells)

/-- Python dict assignment `m[k] = v`: replace the value in place if the key
exists, otherwise append the new entry (insertion-ordered dict). -/
def dinsert (m : List (String × String)) (k v : String) : List (String × String) :=
  if (m.lookup k).isSome then m.map (fun p => if p.1 = k then (k, v) else p)
  else m ++ [(k, v)]

/-- Python `base.copy()` followed by `.update(upd)`. -/
def pyDictUpdate (base upd : List (String × String)) : List (String × String) :=
  upd.foldl (fun m p => dinsert m p.1 p.2) base

/-- One data row of the answer strategy: first cell must be a digit string and
the second cell non-empty; the second cell, normalized, becomes the letter. -/
def ansRowStep (mapping : List (String × String)) (cells : List String) :
    List (String × String) :=
  match cells with
  | num :: val :: _ =>
    let num := pyStrip num
    let val := pyStrip val
    if pyIsDigit num && !(val == "") then dinsert mapping num (optMapGet val)
    else mapping
  | _ => mapping

/-- Mapping built from one table run by `_parse_answer_map`; the first row of
the run is skipped unconditionally (`rows[1:]`). -/
def tableToAnsMap (rows : List (List String)) : List (String × String) :=
  rows.tail.foldl ansRowStep []

/-- One data row of the modification strategy: first cell must be a digit
string, and the last non-empty cell among the remaining cells, normalized,
becomes the corrected letter. -/
def modRowStep (mapping : List (String × String)) (cells : List String) :
    List (String × String) :=
  match cells with
  | num :: c1 :: rest =>
    let num := pyStrip num
    if pyIsDigit num then
      let vals := ((c1 :: rest).map pyStrip).filter (fun c => !(c == ""))
      match vals.getLast? with
      | some v => dinsert mapping num (optMapGet v)
      | none => mapping
    else mapping
  | _ => mapping

/-- Mapping built from one table run by `_parse_mod_map`; the first row of the
run is skipped unconditionally (`rows[1:]`). -/
def tableToModMap (rows : List (List String)) : List (String × String) :=
  rows.tail.foldl modRowStep []

/-- Widest-table-wins selection: keep the run whose mapping has strictly more
entries than the best so far (ties keep the earlier run). -/
def pickBest (maps : List (List (String × String))) : List (String × String) :=
  maps.foldl (fun best m => if m.length > best.length then m else best) []

/-- Positional fallback of `_parse_answer_map`: letters found by the scan, in
reading order, normalized. -/
def fallbackLetters (md : String) : List String :=
  (md.data.filter ansLetterChar).map (fun c => optMapGet ⟨[c]⟩)

/-- The `_parse_answer_map` function: widest table run wins; if no run yields
entries, scan the text for letters and assign them to ids 1, 2, ... -/
def parse_answer_map (md : String) : List (String × String) :=
  let best := pickBest ((extract_md_tables md).map tableToAnsMap)
  if !best.isEmpty then best
  else (fallbackLetters md).enum.map (fun p => (toString (p.1 + 1), p.2))

/-- One step of the fallback scan of `_parse_mod_map` over the regex for
an id, optional spaces, a dot (ASCII or full-width), optional spaces and a
letter; returns the match and the remaining input. -/
def modScanAux : Nat → List Char → List (String × String)
  | 0, _ => []
  | _ + 1, [] => []
  | fuel + 1, c :: rest =>
    if pyIsDigitChar c then
      let ds := (c :: rest).takeWhile pyIsDigitChar
      let after := ((c :: rest).dropWhile pyIsDigitChar).dropWhile pyIsSpace
      match after with
      | d :: after2 =>
        if d = '.' ∨ d = '．' then
          match after2.dropWhile pyIsSpace with
          | a :: after3 =>
            if ansLetterChar a then
              (⟨ds⟩, optMapGet ⟨[a]⟩) :: modScanAux fuel after3
            else modScanAux fuel rest
          | [] => []
        else modScanAux fuel rest
      | [] => []
    else modScanAux fuel rest

/-- The `_parse_mod_map` function: widest table run wins; if no run yields
entries, scan for inline `id. letter` patterns. -/
def parse_mod_map (md : String) : List (String × String) :=
  let best := pickBest ((extract_md_tables md).map tableToModMap)
  if !best.isEmpty then best
  else (modScanAux md.data.length md.data).foldl (fun m p => dinsert m p.1 p.2) []

/-- The `_is_valid_map` function: the mapping covers exactly `count` entries
and every value is one of the four letters. -/
def is_valid_map (mapping : List (String × String)) (count : Nat) : Bool :=
  mapping.length == count &&
  mapping.all (fun p => p.2 == "A" || p.2 == "B" || p.2 == "C" || p.2 == "D")

/-- Universe of values handled by the combine/validate/persist stage: the
JSON-serializable Python values this program builds (strings, ints, lists and
insertion-ordered string-keyed dicts). -/
inductive PyVal where
  | vStr (s : String)
  | vInt (n : Int)
  | vList (items : List PyVal)
  | vDict (entries : List (String × PyVal))
deriving Repr

/-- Structural check of one question dict inside `validate_output_structure`:
the keys `id`, `answer` and `question` must be present, `id` must be an int,
`answer` one of the four letters, and `options` / `images`, when present, a
dict / list.  The type of `question` is not inspected. -/
def validQuestion (q : PyVal) : Bool :=
  match q with
  | .vDict es =>
    (es.lookup "id").isSome && (es.lookup "answer").isSome &&
    (es.lookup "question").isSome &&
    (match es.lookup "id" with | some (.vInt _) => true | _ => false) &&
    (match es.lookup "answer" with
     | some (.vStr a) => a == "A" || a == "B" || a == "C" || a == "D"
     | _ => false) &&
    (match es.lookup "options" with
     | some (.vDict _) => true | some _ => false | none => true) &&
    (match es.lookup "images" with
     | some (.vList _) => true | some _ => false | none => true)
  | _ => false

/-- Inner check of one source entry: a non-empty list of valid questions. -/
def sourceEntryOk (q : String × PyVal) : Bool :=
  match q.2 with
  | .vList qs => !qs.isEmpty && qs.all validQuestion
  | _ => false

/-- Inner check of one subject entry: a non-empty dict of valid sources. -/
def subjectEntryOk (p : String × PyVal) : Bool :=
  match p.2 with
  | .vDict srcs => !srcs.isEmpty && srcs.all sourceEntryOk
  | _ => false

/-- The `validate_output_structure` function: non-empty subjects dict, each
subject a non-empty dict of sources, each source a non-empty list of valid
question dicts. -/
def validate_output_structure (data : PyVal) : Bool :=
  match data with
  | .vDict top =>
    (match top.lookup "subjects" with
     | some (.vDict subjects) => !subjects.isEmpty && subjects.all subjectEntryOk
     | _ => false)
  | _ => false

/-- Token stream of the JSON artifact: serialization is modelled at token
level (string escaping inside `json.dump` is injective, so the lexer is
dropped from the model). -/
inductive JTok where
  | lbrace | rbrace | lbrack | rbrack | colon | comma
  | jstr (s : String) | jint (n : Int)
deriving DecidableEq, Repr

mutual

/-- Token serialization of a value, mirroring `json.dump`. -/
def dumpToks : PyVal → List JTok
  | .vStr s => [.jstr s]
  | .vInt n => [.jint n]
  | .vList [] => [.lbrack, .rbrack]
  | .vList (v :: vs) => .lbrack :: (dumpToks v ++ itemsTailToks vs)
  | .vDict [] => [.lbrace, .rbrace]
  | .vDict (e :: es) =>
    .lbrace :: .jstr e.1 :: .colon :: (dumpToks e.2 ++ entriesTailToks es)

/-- Serialization of the remaining items of a list, including the closing
bracket. -/
def itemsTailToks : List PyVal → List JTok
  | [] => [.rbrack]
  | v :: vs => .comma :: (dumpToks v ++ itemsTailToks vs)

/-- Serialization of the remaining entries of a dict, including the closing
brace. -/
def entriesTailToks : List (String × PyVal) → List JTok
  | [] => [.rbrace]
  | e :: es => .comma :: .jstr e.1 :: .colon :: (dumpToks e.2 ++ entriesTailToks es)

end

mutual

/-- Fuelled recursive-descent parser for one JSON value, mirroring
`json.load`; returns the value and the unconsumed tokens. -/
def parseVal : Nat → List JTok → Option (PyVal × List JTok)
  | 0, _ => none
  | _ + 1, [] => none
  | fuel + 1, t :: rest =>
    match t with
    | .jstr s => some (.vStr s, rest)
    | .jint n => some (.vInt n, rest)
    | .lbrack =>
      match rest with
      | .rbrack :: rest2 => some (.vList [], rest2)
      | _ =>
        match parseVal fuel rest with
        | some (v, rest2) =>
          match parseItemsTail fuel rest2 with
          | some (vs, rest3) => some (.vList (v :: vs), rest3)
          | none => none
        | none => none
    | .lbrace =>
      match rest with
      | .rbrace :: rest2 => some (.vDict [], rest2)
      | .jstr k :: .colon :: rest2 =>
        match parseVal fuel rest2 with
        | some (v, rest3) =>
          match parseEntriesTail fuel rest3 with
          | some (es, rest4) => some (.vDict ((k, v) :: es), rest4)
          | none => none
        | none => none
      | _ => none
    | _ => none

/-- Fuelled parser for the tail of a list: a closing bracket or a comma
followed by a value. -/
def parseItemsTail : Nat → List JTok → Option (List PyVal × List JTok)
  | 0, _ => none
  | _ + 1, [] => none
  | fuel + 1, t :: rest =>
    match t with
    | .rbrack => some ([], rest)
    | .comma =>
      match parseVal fuel rest with
      | some (v, rest2) =>
        match parseItemsTail fuel rest2 with
        | some (vs, rest3) => some (v :: vs, rest3)
        | none => none
      | none => none
    | _ => none

/-- Fuelled parser for the tail of a dict: a closing brace or a comma
followed by a key-value pair. -/
def parseEntriesTail : Nat → List JTok → Option (List (String × PyVal) × List JTok)
  | 0, _ => none
  | _ + 1, [] => none
  | fuel + 1, t :: rest =>
    match t with
    | .rbrace => some ([], rest)
    | .comma =>
      match rest with
      | .jstr k :: .colon :: rest2 =>
        match parseVal fuel rest2 with
        | some (v, rest3) =>
          match parseEntriesTail fuel rest3 with
          | some (es, rest4) => some ((k, v) :: es, rest4)
          | none => none
        | none => none
      | _ => none
    | _ => none

end

/-- Serialize a value (the `json.dump` call inside `combine`). -/
def jdumps (v : PyVal) : List JTok := dumpToks v

/-- Reload a serialized artifact (the `json.load` call inside `combine`):
parse one value and require the stream to be exhausted. -/
def jloads (toks : List JTok) : Option PyVal :=
  match parseVal (toks.length + 1) toks with
  | some (v, []) => some v
  | _ => none

/-- A question record as built by `parse_questions`: the dict with keys
`id`, `question`, `options`, `images`, plus the `answer` key that `combine`
adds (absent while `answer = none`). -/
structure Question where
  id : Nat
  question : String
  options : List (String × String)
  images : List String
  answer : Option String
deriving Repr, DecidableEq

/-- List-level test for `img.startswith('data:image')`. -/
def listStartsWith : List Char → List Char → Bool
  | [], _ => true
  | _ :: _, [] => false
  | p :: ps, c :: cs => p = c && listStartsWith ps cs

/-- Image normalization inside the `combine` loop: prefix a bare base64
payload with the data URI, leave already-tagged payloads unchanged. -/
def normImg (img : String) : String :=
  if listStartsWith "data:image".data img.data then img
  else "data:image/png;base64," ++ img

/-- View of a question record as the Python dict it is, in key insertion
order (`answer` present only once `combine` has set it). -/
def Question.toPyVal (q : Question) : PyVal :=
  .vDict ([("id", .vInt q.id), ("question", .vStr q.question),
           ("options", .vDict (q.options.map (fun p => (p.1, PyVal.vStr p.2)))),
           ("images", .vList (q.images.map PyVal.vStr))] ++
          (match q.answer with | some a => [("answer", PyVal.vStr a)] | none => []))

/-- The assignment loop of `combine`: walk the questions in order, writing
the resolved answer and normalizing images in place; on the first id missing
from the mapping, stop with an error, leaving the already-processed prefix
mutated and the rest untouched (Python mutates the caller's dicts). -/
def assignAnswersAux : List Question → List (String × String) → List Question × Bool
  | [], _ => ([], true)
  | q :: rest, mapping =>
    match mapping.lookup (toString q.id) with
    | none => (q :: rest, false)
    | some a =>
      let q2 := { q with answer := some a, images := q.images.map normImg }
      let (rest2, ok) := assignAnswersAux rest mapping
      (q2 :: rest2, ok)

/-- The combined output value `{"subjects": {subject: {source: questions}}}`. -/
def buildOut (subject source : String) (qs : List Question) : PyVal :=
  .vDict [("subjects", .vDict [(subject, .vDict [(source, .vList (qs.map Question.toPyVal))])])]

/-- Tail of `combine` once a mapping has been selected: run the assignment
loop, build the output, validate it, serialize and reload it, and validate
again.  Returns the post-state of the question list together with the result
(`Except.error` models the raised `ValueError`). -/
def finishCombine (qs : List Question) (mapping : List (String × String))
    (subject source : String) : List Question × Except String PyVal :=
  let p := assignAnswersAux qs mapping
  if !p.2 then (p.1, .error "Missing answer for question")
  else
    let out := buildOut subject source p.1
    if !validate_output_structure out then
      (p.1, .error "Combined output failed validation")
    else
      match jloads (jdumps out) with
      | some loaded =>
        if validate_output_structure loaded then (p.1, .ok out)
        else (p.1, .error "Written output failed validation")
      | none => (p.1, .error "Written output failed validation")

/-- The mapping-selection and resolution logic of `combine`, starting from
the two parsed mappings: use a valid answer mapping alone, else a valid
modification mapping, else (if either mapping is non-empty) their merge with
modification entries overriding, which must be valid, else fail. -/
def combineMaps (qs : List Question) (ans_map mod_map : List (String × String))
    (subject source : String) : List Question × Except String PyVal :=
  let q_count := qs.length
  if is_valid_map ans_map q_count then finishCombine qs ans_map subject source
  else if is_valid_map mod_map q_count then finishCombine qs mod_map subject source
  else if !ans_map.isEmpty || !mod_map.isEmpty then
    let merged := pyDictUpdate ans_map mod_map
    if is_valid_map merged q_count then finishCombine qs merged subject source
    else (qs, .error "Answer and modification mapping incomplete or invalid")
  else (qs, .error "No analyzable tables in answer or modification PDFs")

/-- The `combine` function: parse the answer and modification markdown (empty
text yields an empty mapping) and reconcile. -/
def combine (qs : List Question) (ans_md mod_md : String) (subject source : String) :
    List Question × Except String PyVal :=
  combineMaps qs (if ans_md = "" then [] else parse_answer_map ans_md)
    (if mod_md = "" then [] else parse_mod_map mod_md) subject source

/-- A positioned text fragment: `(x0, y0, text)` of one line of a page. -/
structure Line where
  x : Rat
  y : Rat
  text : String
deriving Repr

/-- An embedded image of a page: the placement rectangles' vertical extents
`(y0, y1)` as returned by `get_image_rects`, and the base64 payload. -/
structure PdfImage where
  rects : List (Rat × Rat)
  payload : String
deriving Repr

/-- One page of the document as supplied by the provider: its text lines
(unsorted), its bottom edge `page.rect.y1`, and its images. -/
structure Page where
  lines : List Line
  bottom : Rat
  images : List PdfImage
deriving Repr

/-- Strict comparison of the sort key `(y, x)` of two lines. -/
def lineKeyLT (a b : Line) : Bool :=
  a.y < b.y || (a.y == b.y && a.x < b.x)

/-- Stable insertion of a line into an already sorted list: the new line goes
after every line whose key is not strictly greater. -/
def insertLine (x : Line) : List Line → List Line
  | [] => [x]
  | y :: ys => if lineKeyLT x y then x :: y :: ys else y :: insertLine x ys

/-- The sort `lines.sort(key=lambda l: (l[1], l[0]))`: a stable sort by
`(y, x)`, realized as stable insertion sort (any two stable sorts under the
same key agree). -/
def sortLines (ls : List Line) : List Line :=
  ls.foldl (fun acc x => insertLine x acc) []

/-- Match of the `QUESTION_START` regex for one to three digits, an ASCII or
full-width dot, optional whitespace and the rest of the line; returns the
numeral's value and the rest. -/
def matchQuestionStart (s : String) : Option (Nat × String) :=
  let ds := s.data.takeWhile pyIsDigitChar
  let rest := s.data.dropWhile pyIsDigitChar
  if 1 ≤ ds.length ∧ ds.length ≤ 3 then
    match rest with
    | c :: tail =>
      if c = '.' ∨ c = '．' then
        some (pyToNat ⟨ds⟩, ⟨(tail.dropWhile pyIsSpace).takeWhile (· ≠ '\n')⟩)
      else none
    | [] => none
  else none

/-- Match of the `OPTION_PATTERN` regex: a letter `A`-`D` followed by a dot,
a pipe or whitespace. -/
def optionPatternMatch (s : String) : Bool :=
  match s.data with
  | a :: b :: _ => ('A' ≤ a && a ≤ 'D') && (b = '.' || b = '|' || pyIsSpace b)
  | _ => false

/-- Append a line to a question's body, newline-joined
(`prev['question'] += '\n' + stripped` / initial assignment). -/
def appendBody (q : Question) (s : String) : Question :=
  if q.question ≠ "" then { q with question := q.question ++ "\n" ++ s }
  else { q with question := s }

/-- Start or overwrite one option's value. -/
def setOption (q : Question) (k v : String) : Question :=
  { q with options := dinsert q.options k v }

/-- Append a continuation line to the currently open option, newline-joined. -/
def appendOption (q : Question) (k s : String) : Question :=
  let t := (q.options.lookup k).getD ""
  { q with options := dinsert q.options k (t ++ "\n" ++ s) }

/-- Truthiness of the `last_opt` variable. -/
def lastOptTruthy : Option String → Bool
  | none => false
  | some s => !(s == "")

/-- A question that is open during main-phase processing: its record plus the
vertical range `[y0, y1]` (where `y1` starts as the page bottom). -/
structure OpenQ where
  data : Question
  y0 : Rat
  y1 : Rat
deriving Repr

/-- The running segmentation state of the main phase of one page: flushed
questions so far (whole document), the id expected next, the open question,
the ranges flushed on this page, and the last opened option. -/
structure SegState where
  questions : List Question
  expected : Nat
  current : Option OpenQ
  q_ranges : List (Rat × Rat)
  last_opt : Option String
deriving Repr

/-- Flush the open question (if any) with its range cut at `ycut`. -/
def flushAt (st : SegState) (ycut : Rat) : SegState :=
  match st.current with
  | some oq =>
    { st with questions := st.questions ++ [oq.data],
              q_ranges := st.q_ranges ++ [(oq.y0, ycut)] }
  | none => st

/-- Transition for a new-question marker at height `y0`: flush the open
question with its range cut at `y0`, open a fresh question with the given id
and body, bump `expected`, clear `last_opt`. -/
def openNew (st : SegState) (qid : Nat) (y0 bottom : Rat) (body : String) : SegState :=
  { flushAt st y0 with
      current := some ⟨{ id := qid, question := body, options := [], images := [],
                         answer := none }, y0, bottom⟩,
      expected := (flushAt st y0).expected + 1,
      last_opt := none }

/-- Replace the data of the open question. -/
def withCurrent (st : SegState) (oq : OpenQ) (q : Question) : SegState :=
  { st with current := some { oq with data := q } }

/-- Shared fallthrough of the main phase: append the line to the open option
if one is open and the line is non-empty, else to the question body. -/
def fallbackText (st : SegState) (oq : OpenQ) (stripped : String) : SegState :=
  if lastOptTruthy st.last_opt && !(stripped == "") then
    withCurrent st oq (appendOption oq.data (st.last_opt.getD "") stripped)
  else
    withCurrent st oq (appendBody oq.data stripped)

/-- Non-marker branch of the main phase: option markers (private-use or
full-width glyph first, then the `A.`-style pattern) start or overwrite an
option; anything else is continuation text. -/
def mainElse (st : SegState) (stripped : String) : SegState :=
  match st.current with
  | none => st
  | some oq =>
    match stripped.data.head? with
    | some c =>
      match optMapChar c with
      | some k =>
        { (withCurrent st oq (setOption oq.data k (pyStrip ⟨stripped.data.drop 1⟩)))
            with last_opt := some k }
      | none =>
        if optionPatternMatch stripped then
          { (withCurrent st oq (setOption oq.data ⟨[c]⟩ (pyStrip ⟨stripped.data.drop 2⟩)))
              with last_opt := some ⟨[c]⟩ }
        else fallbackText st oq stripped
    | none => fallbackText st oq stripped

/-- Main-phase processing of one line, translating the per-line branch of
`parse_questions`: a bare integer equal to `expected` or an
`"<id>. <rest>"` marker with `id == expected` opens a new question; a bare
integer different from `expected` is ordinary text; everything else goes
through the option/continuation classification. -/
def processLine (bottom : Rat) (st : SegState) (l : Line) : SegState :=
  if pyIsDigit (pyStrip l.text) then
    if pyToNat (pyStrip l.text) = st.expected then
      openNew st (pyToNat (pyStrip l.text)) l.y bottom ""
    else
      match st.current with
      | some oq =>
        if lastOptTruthy st.last_opt && !(pyStrip l.text == "") then
          withCurrent st oq (appendOption oq.data (st.last_opt.getD "") (pyStrip l.text))
        else
          withCurrent st oq (appendBody oq.data (pyStrip l.text))
      | none => st
  else
    match matchQuestionStart (pyStrip l.text) with
    | some (qid, body) =>
      if qid = st.expected then openNew st qid l.y bottom (pyStrip body)
      else mainElse st (pyStrip l.text)
    | none => mainElse st (pyStrip l.text)

/-- Whether a line ends the carry-over phase: a new-question marker for the
expected id (bare integer or `"<id>. <rest>"`). -/
def isBreakLine (expected : Nat) (stripped : String) : Bool :=
  (pyIsDigit stripped && pyToNat stripped == expected) ||
  (match matchQuestionStart stripped with
   | some (qid, _) => qid == expected
   | none => false)

/-- Consume one carry-over line into the previous page's last question:
option markers overwrite that option, anything else joins the body. -/
def carryLine (q : Question) (stripped : String) : Question :=
  match stripped.data.head? with
  | some c =>
    match optMapChar c with
    | some k => setOption q k (pyStrip ⟨stripped.data.drop 1⟩)
    | none =>
      if optionPatternMatch stripped then
        setOption q ⟨[c]⟩ (pyStrip ⟨stripped.data.drop 2⟩)
      else appendBody q stripped
  | none => appendBody q stripped

/-- The carry-over loop at the start of a page: lines before the next
new-question marker are folded into the previous question; returns the
updated question and the unconsumed lines. -/
def carryOver (expected : Nat) (q : Question) : List Line → Question × List Line
  | [] => (q, [])
  | l :: rest =>
    let stripped := pyStrip l.text
    if isBreakLine expected stripped then (q, l :: rest)
    else carryOver expected (carryLine q stripped) rest

/-- First matching range index for an image, using the first placement
rectangle's vertical center (none when the image has no rectangle or the
center lies in no range). -/
def imgFirstIdx (q_ranges : List (Rat × Rat)) (im : PdfImage) : Option Nat :=
  match im.rects.head? with
  | none => none
  | some r =>
    let c := (r.1 + r.2) / 2
    q_ranges.findIdx? (fun p => decide (p.1 ≤ c) && decide (c ≤ p.2))

/-- Data URI tagging applied by `_extract_images` to each payload. -/
def dataUri (payload : String) : String := "data:image/png;base64," ++ payload

/-- Processing of one image inside `_extract_images`: append its tagged
payload to the group of the first range containing its vertical center, or
drop it. -/
def addImage (q_ranges : List (Rat × Rat)) (groups : List (List String))
    (im : PdfImage) : List (List String) :=
  match imgFirstIdx q_ranges im with
  | some idx => groups.set idx (groups.getD idx [] ++ [dataUri im.payload])
  | none => groups

/-- The `_extract_images` function: per-question image groups for one page. -/
def extract_images (imgs : List PdfImage) (q_ranges : List (Rat × Rat)) :
    List (List String) :=
  imgs.foldl (addImage q_ranges) (List.replicate q_ranges.length [])

/-- The zip at the end of page processing: extend the images of the last
`len(groups)` questions with the corresponding groups. -/
def attachImages (qs : List Question) (groups : List (List String)) : List Question :=
  if groups.isEmpty then qs
  else
    let split := qs.length - groups.length
    qs.take split ++
      ((qs.drop split).zip groups).map (fun p => { p.1 with images := p.1.images ++ p.2 })

/-- Carry-over phase of one page (the `if questions:` block): when a previous
question exists, consume the page-start lines into it (`questions[-1]` is
updated in place); returns the updated question list and the remaining
lines. -/
def carryPhase (acc : List Question × Nat) (lines : List Line) :
    List Question × List Line :=
  match acc.1.getLast? with
  | some prev =>
    let c := carryOver acc.2 prev lines
    (acc.1.dropLast ++ [c.1], c.2)
  | none => (acc.1, lines)

/-- End-of-page flush: if a question is still open, append it with its range
extended to the page bottom. -/
def flushPage (st : SegState) : SegState :=
  match st.current with
  | some oq =>
    { st with questions := st.questions ++ [oq.data],
              q_ranges := st.q_ranges ++ [(oq.y0, oq.y1)] }
  | none => st

/-- Main-phase run of one page followed by the end-of-page flush: the
segmentation state after the whole page has been consumed. -/
def pageMainState (acc : List Question × Nat) (pg : Page) : SegState :=
  flushPage ((carryPhase acc (sortLines pg.lines)).2.foldl (processLine pg.bottom)
    ⟨(carryPhase acc (sortLines pg.lines)).1, acc.2, none, [], none⟩)

/-- Whole-page processing of `parse_questions`: sort the lines, run the
carry-over phase into the previous question (when one exists), run the main
phase, flush the still-open question at the page bottom, and attach the
page's images to the questions flushed on this page. -/
def processPage (acc : List Question × Nat) (pg : Page) : List Question × Nat :=
  (attachImages (pageMainState acc pg).questions
    (extract_images pg.images (pageMainState acc pg).q_ranges),
   (pageMainState acc pg).expected)

/-- The `parse_questions` function over a whole document: fold the pages with
`expected` starting at 1 and no questions. -/
def parse_questions (doc : List Page) : List Question :=
  (doc.foldl processPage ([], 1)).1

/-- Whether a line carries the new-question marker for the given id: its
stripped text is that bare integer, or matches `QUESTION_START` with that
id. This is the input-side notion of "the line that starts question
`expected`". -/
def lineTriggers (expected : Nat) (l : Line) : Bool :=
  if pyIsDigit (pyStrip l.text) then pyToNat (pyStrip l.text) == expected
  else
    match matchQuestionStart (pyStrip l.text) with
    | some (qid, _) => qid == expected
    | none => false

/-- One step of the input-side marker scan: a marker for the running id
advances it, every other line leaves it unchanged. -/
def scanStep (e : Nat) (l : Line) : Nat :=
  if lineTriggers e l then e + 1 else e

/-- The marker scan over one page's lines in reading order. -/
def pageScan (e : Nat) (pg : Page) : Nat :=
  (sortLines pg.lines).foldl scanStep e

/-- The marker scan over a whole document, starting from id 1. -/
def docExpected (doc : List Page) : Nat := doc.foldl pageScan 1

/-- Specification-level count of the questions a document contains: scanning
the lines of all pages in reading order with a running id starting at 1, the
markers `1`, `2`, ... fire in order, and the count is the number of markers
that fire. A document containing `N` sequentially numbered questions (in the
claim's sense, markers possibly split across pages) has `docQuestionCount`
equal to `N`. -/
def docQuestionCount (doc : List Page) : Nat := docExpected doc - 1

/-- Specification-level reading of the per-question structural check, written
from the spec's words for comparison with `validQuestion` (without the string
check on `question`, which the code does not perform). -/
def QuestionSpec (q : PyVal) : Prop :=
  ∃ es, q = .vDict es ∧
    (∃ n, es.lookup "id" = some (.vInt n)) ∧
    (∃ a, es.lookup "answer" = some (.vStr a) ∧ (a = "A" ∨ a = "B" ∨ a = "C" ∨ a = "D")) ∧
    (∃ qv, es.lookup "question" = some qv) ∧
    (∀ ov, es.lookup "options" = some ov → ∃ oes, ov = PyVal.vDict oes) ∧
    (∀ iv, es.lookup "images" = some iv → ∃ its, iv = PyVal.vList its)

/-- Specification-level reading of the whole output validator: non-empty
subjects mapping, non-empty source mappings, non-empty question lists, every
question structurally valid. -/
def ValidOutSpec (v : PyVal) : Prop :=
  ∃ top subjects, v = .vDict top ∧
    top.lookup "subjects" = some (.vDict subjects) ∧ subjects ≠ [] ∧
    ∀ p ∈ subjects, ∃ srcs, p.2 = PyVal.vDict srcs ∧ srcs ≠ [] ∧
      ∀ s ∈ srcs, ∃ qlist, s.2 = PyVal.vList qlist ∧ qlist ≠ [] ∧
        ∀ q ∈ qlist, QuestionSpec q

/-- Ids held by the open question slot (empty when no question is open). -/
def curIds : Option OpenQ → List Nat
  | some oq => [oq.data.id]
  | none => []

/-- Invariant of the main-phase segmentation state: the flushed questions
followed by the open question carry exactly the ids `1, 2, ...` up to
`expected - 1`. -/
def SegInv (st : SegState) : Prop :=
  st.questions.map Question.id ++ curIds st.current =
    List.range' 1 (st.expected - 1) ∧ 1 ≤ st.expected

/-- Concrete two-page document used as a test fixture: three questions, the
second one's body wrapping onto the second page. -/
def exPage1 : Page :=
  { lines := [⟨50, 10, "1"⟩, ⟨50, 20, "What is"⟩, ⟨50, 30, "A. opt"⟩,
              ⟨50, 40, "2. Second question"⟩],
    bottom := 100, images := [] }

/-- Second page of the fixture document. -/
def exPage2 : Page :=
  { lines := [⟨50, 5, "continuation"⟩, ⟨50, 15, "3. Third"⟩],
    bottom := 100, images := [] }

/-- The fixture document. -/
def exDoc : List Page := [exPage1, exPage2]

/-- A main-phase state with question 2 open and option `A` last opened. -/
def exState : SegState :=
  ⟨[⟨1, "q1", [], [], none⟩], 3, some ⟨⟨2, "q2", [("A", "opt")], [], none⟩, 50, 100⟩,
   [], some "A"⟩

/-- A bare-integer line whose value differs from the expected id. -/
def exLine : Line := ⟨50, 60, "7"⟩

/-- Two questions awaiting reconciliation. -/
def exQs : List Question := [⟨1, "q1", [], [], none⟩, ⟨2, "q2", [], [], none⟩]

/-- A mapping that passes the validity predicate for two questions but whose
keys do not cover id 2. -/
def exAnsGap : List (String × String) := [("1", "A"), ("3", "B")]

/-- A complete valid answer mapping for the two fixture questions. -/
def exAns : List (String × String) := [("1", "A"), ("2", "B")]

/-- A partial modification mapping. -/
def exMod : List (String × String) := [("2", "C")]

/-- A combined output value that passes the structural check. -/
def exOut : PyVal :=
  buildOut "S" "K" [⟨1, "q1", [("A", "x")], ["data:image/png;base64,AAA"], some "A"⟩]

/-- An output whose single question has a non-string `question` value. -/
def exBadOut : PyVal :=
  .vDict [("subjects", .vDict [("S", .vDict [("K", .vList
    [.vDict [("id", .vInt 1), ("question", .vInt 42), ("answer", .vStr "A")]])])])]

/-- Markdown with two table runs of different sizes. -/
def exTwoTables : String :=
  "| h | h |\n| 1 | A |\nx\n| h | h |\n| 2 | B |\n| 3 | C |"

/-- Image fixtures: one inside the first range, one exactly on the shared
boundary of both ranges, one in no range, one with no placement rectangle. -/
def exImgs : List PdfImage :=
  [⟨[(20, 30)], "AAA"⟩, ⟨[(40, 40)], "BBB"⟩, ⟨[(200, 300)], "CCC"⟩, ⟨[], "DDD"⟩]

/-- Two adjacent question ranges sharing the boundary y = 40. -/
def exRanges : List (Rat × Rat) := [(10, 40), (40, 100)]

/-! Association-list lemmas for the Python dict model. -/

theorem lookup_dinsert_self (m : List (String × String)) (k v : String) :
    (dinsert m k v).lookup k = some v := by
  unfold dinsert
  split
  case isTrue h =>
    induction m with
    | nil => simp [List.lookup] at h
    | cons p rest ih =>
      obtain ⟨a, b⟩ := p
      by_cases hak : a = k
      · subst hak; simp [List.lookup_cons]
      · have hb : (k == a) = false := beq_eq_false_iff_ne.mpr (Ne.symm hak)
        simp only [List.lookup_cons, hb, Option.isSome] at h
        simp only [List.map_cons, if_neg hak, List.lookup_cons, hb]
        exact ih h
  case isFalse h =>
    induction m with
    | nil => simp [List.lookup]
    | cons p rest ih =>
      obtain ⟨a, b⟩ := p
      by_cases hak : a = k
      · subst hak; simp [List.lookup_cons] at h
      · have hb : (k == a) = false := beq_eq_false_iff_ne.mpr (Ne.symm hak)
        simp only [List.lookup_cons, hb, Option.isSome] at h
        simp only [List.cons_append, List.lookup_cons, hb]
        exact ih h

theorem lookup_dinsert_ne (m : List (String × String)) (k v k' : String)
    (hne : k' ≠ k) : (dinsert m k v).lookup k' = m.lookup k' := by
  have hb : (k' == k) = false := beq_eq_false_iff_ne.mpr hne
  unfold dinsert
  split
  case isTrue h =>
    clear h
    induction m with
    | nil => simp
    | cons p rest ih =>
      obtain ⟨a, b⟩ := p
      by_cases hak : a = k
      · subst hak
        simp only [List.map_cons, if_pos rfl, List.lookup_cons, hb]
        simpa [List.lookup_cons, hb] using ih
      · simp only [List.map_cons, if_neg hak, List.lookup_cons]
        cases hcase : (k' == a) with
        | true => rfl
        | false => exact ih
  case isFalse h =>
    clear h
    induction m with
    | nil => simp [List.lookup, hb]
    | cons p rest ih =>
      obtain ⟨a, b⟩ := p
      simp only [List.cons_append, List.lookup_cons]
      cases hcase : (k' == a) with
      | true => rfl
      | false => exact ih

theorem lookup_isSome_exists (m : List (String × String)) (k : String)
    (h : (m.lookup k).isSome = true) : ∃ b, (k, b) ∈ m := by
  induction m with
  | nil => simp [List.lookup] at h
  | cons p rest ih =>
    obtain ⟨a, b⟩ := p
    rw [List.lookup_cons] at h
    cases hka : (k == a) with
    | true =>
      have : k = a := beq_iff_eq.mp hka
      exact ⟨b, by simp [this]⟩
    | false =>
      rw [hka] at h
      obtain ⟨b2, hb2⟩ := ih h
      exact ⟨b2, List.mem_cons_of_mem _ hb2⟩

theorem mem_keys_dinsert (m : List (String × String)) (k v k' : String) :
    k' ∈ (dinsert m k v).map Prod.fst ↔ k' = k ∨ k' ∈ m.map Prod.fst := by
  unfold dinsert
  split
  case isTrue h =>
    rw [List.map_map]
    simp only [List.mem_map, Function.comp]
    constructor
    · rintro ⟨p, hp, hpe⟩
      by_cases hpk : p.1 = k
      · rw [if_pos hpk] at hpe; exact Or.inl hpe.symm
      · rw [if_neg hpk] at hpe
        exact Or.inr ⟨p, hp, hpe⟩
    · rintro (rfl | ⟨p, hp, hpe⟩)
      · obtain ⟨b, hb⟩ := lookup_isSome_exists m k' h
        exact ⟨(k', b), hb, by simp⟩
      · refine ⟨p, hp, ?_⟩
        by_cases hpk : p.1 = k
        · rw [if_pos hpk]; rw [← hpe, hpk]
        · rw [if_neg hpk]; exact hpe
  case isFalse h =>
    rw [List.map_append]
    simp only [List.map_cons, List.map_nil, List.mem_append, List.mem_singleton]
    tauto

theorem lookup_pyDictUpdate (base upd : List (String × String)) (k : String)
    (hnd : (upd.map Prod.fst).Nodup) :
    (pyDictUpdate base upd).lookup k = (upd.lookup k).or (base.lookup k) := by
  induction upd generalizing base with
  | nil => simp [pyDictUpdate, List.lookup]
  | cons p rest ih =>
    obtain ⟨a, b⟩ := p
    simp only [List.map_cons, List.nodup_cons] at hnd
    obtain ⟨hna, hnd2⟩ := hnd
    have hstep : pyDictUpdate base ((a, b) :: rest) = pyDictUpdate (dinsert base a b) rest := by
      simp [pyDictUpdate]
    rw [hstep, ih (dinsert base a b) hnd2]
    by_cases hk : k = a
    · subst hk
      have hrest : rest.lookup k = none := by
        rw [List.lookup_eq_none_iff]
        intro p hp
        exact bne_iff_ne.mpr (fun he => hna (List.mem_map.mpr ⟨p, hp, he.symm⟩))
      rw [hrest, List.lookup_cons]
      simp [lookup_dinsert_self]
    · have hb : (k == a) = false := beq_eq_false_iff_ne.mpr hk
      rw [List.lookup_cons, hb, lookup_dinsert_ne base a b k hk]

/-! Characterization of the widest-table-wins fold. -/

theorem pickAux (ms : List (List (String × String))) (b : List (String × String)) :
    (ms.foldl (fun best m => if m.length > best.length then m else best) b = b ∧
      ∀ m ∈ ms, m.length ≤ b.length) ∨
    (∃ (i : Nat) (m : List (String × String)), ms[i]? = some m ∧
      ms.foldl (fun best m => if m.length > best.length then m else best) b = m ∧
      b.length < m.length ∧
      (∀ (j : Nat) (mj : List (String × String)), ms[j]? = some mj → mj.length ≤ m.length) ∧
      (∀ (j : Nat) (mj : List (String × String)), j < i → ms[j]? = some mj → mj.length < m.length)) := by
  induction ms generalizing b with
  | nil => exact Or.inl ⟨rfl, by simp⟩
  | cons m0 rest ih =>
    rw [List.foldl_cons]
    by_cases h0 : m0.length > b.length
    · rw [if_pos h0]
      rcases ih m0 with ⟨heq, hall⟩ | ⟨i, m, hi, heq, hlt, hall, hfirst⟩
      · refine Or.inr ⟨0, m0, by simp, heq, h0, ?_, ?_⟩
        · intro j mj hj
          match j with
          | 0 => simp at hj; subst hj; exact le_refl _
          | j' + 1 => exact hall mj (List.getElem?_mem (by simpa using hj))
        · intro j mj hjlt _
          omega
      · refine Or.inr ⟨i + 1, m, by simpa using hi, heq, lt_trans h0 hlt, ?_, ?_⟩
        · intro j mj hj
          match j with
          | 0 =>
            simp at hj
            subst hj
            exact le_of_lt hlt
          | j' + 1 => exact hall j' mj (by simpa using hj)
        · intro j mj hjlt hj
          match j with
          | 0 =>
            simp at hj
            subst hj
            exact hlt
          | j' + 1 => exact hfirst j' mj (by omega) (by simpa using hj)
    · rw [if_neg h0]
      push_neg at h0
      rcases ih b with ⟨heq, hall⟩ | ⟨i, m, hi, heq, hlt, hall, hfirst⟩
      · refine Or.inl ⟨heq, ?_⟩
        intro m hm
        rcases List.mem_cons.mp hm with rfl | hm
        · exact h0
        · exact hall m hm
      · refine Or.inr ⟨i + 1, m, by simpa using hi, heq, hlt, ?_, ?_⟩
        · intro j mj hj
          match j with
          | 0 =>
            simp at hj
            subst hj
            exact le_of_lt (lt_of_le_of_lt h0 hlt)
          | j' + 1 => exact hall j' mj (by simpa using hj)
        · intro j mj hjlt hj
          match j with
          | 0 =>
            simp at hj
            subst hj
            exact lt_of_le_of_lt h0 hlt
          | j' + 1 => exact hfirst j' mj (by omega) (by simpa using hj)

theorem pickBest_spec (maps : List (List (String × String)))
    (h : pickBest maps ≠ []) :
    ∃ (i : Nat), maps[i]? = some (pickBest maps) ∧
      (∀ (j : Nat) (mj : List (String × String)),
        maps[j]? = some mj → mj.length ≤ (pickBest maps).length) ∧
      (∀ (j : Nat) (mj : List (String × String)),
        j < i → maps[j]? = some mj → mj.length < (pickBest maps).length) := by
  rcases pickAux maps [] with ⟨heq, _⟩ | ⟨i, m, hi, heq, _, hall, hfirst⟩
  · exact absurd heq h
  · rw [pickBest, heq]
    exact ⟨i, hi, hall, hfirst⟩

/-! Round-trip of the token-level JSON serialization. -/

theorem dumpToks_head (v : PyVal) :
    ∃ t ts, dumpToks v = t :: ts ∧ t ≠ JTok.rbrack := by
  cases v with
  | vStr s => exact ⟨_, _, rfl, by simp⟩
  | vInt n => exact ⟨_, _, rfl, by simp⟩
  | vList items =>
    cases items with
    | nil => exact ⟨_, _, rfl, by simp⟩
    | cons v0 vs => exact ⟨_, _, rfl, by simp⟩
  | vDict es =>
    cases es with
    | nil => exact ⟨_, _, rfl, by simp⟩
    | cons e es' => exact ⟨_, _, rfl, by simp⟩

theorem parse_dump_all (fuel : Nat) :
    (∀ (v : PyVal) (rest : List JTok), (dumpToks v).length < fuel →
      parseVal fuel (dumpToks v ++ rest) = some (v, rest)) ∧
    (∀ (vs : List PyVal) (rest : List JTok), (itemsTailToks vs).length < fuel →
      parseItemsTail fuel (itemsTailToks vs ++ rest) = some (vs, rest)) ∧
    (∀ (es : List (String × PyVal)) (rest : List JTok),
      (entriesTailToks es).length < fuel →
      parseEntriesTail fuel (entriesTailToks es ++ rest) = some (es, rest)) := by
  induction fuel with
  | zero => refine ⟨?_, ?_, ?_⟩ <;> (intro _ _ h; omega)
  | succ fuel ih =>
    obtain ⟨ihv, ihi, ihe⟩ := ih
    refine ⟨?_, ?_, ?_⟩
    · intro v rest hlen
      cases v with
      | vStr s => simp [dumpToks, parseVal]
      | vInt n => simp [dumpToks, parseVal]
      | vList items =>
        cases items with
        | nil => simp [dumpToks, parseVal]
        | cons v0 vs =>
          rw [show dumpToks (PyVal.vList (v0 :: vs)) =
            JTok.lbrack :: (dumpToks v0 ++ itemsTailToks vs) from rfl] at hlen ⊢
          simp only [List.length_cons, List.length_append] at hlen
          have hv0 := ihv v0 (itemsTailToks vs ++ rest) (by omega)
          have hvs := ihi vs rest (by omega)
          obtain ⟨t, ts, hdump, hne⟩ := dumpToks_head v0
          rw [hdump] at hv0 ⊢
          simp only [List.cons_append, List.append_assoc] at hv0 ⊢
          cases t with
          | rbrack => exact absurd rfl hne
          | rbrace => simp [parseVal, hv0, hvs]
          | lbrace => simp [parseVal, hv0, hvs]
          | lbrack => simp [parseVal, hv0, hvs]
          | colon => simp [parseVal, hv0, hvs]
          | comma => simp [parseVal, hv0, hvs]
          | jstr s => simp [parseVal, hv0, hvs]
          | jint n => simp [parseVal, hv0, hvs]
      | vDict es =>
        cases es with
        | nil => simp [dumpToks, parseVal]
        | cons e es' =>
          rw [show dumpToks (PyVal.vDict (e :: es')) =
            JTok.lbrace :: JTok.jstr e.1 :: JTok.colon ::
              (dumpToks e.2 ++ entriesTailToks es') from rfl] at hlen ⊢
          simp only [List.length_cons, List.length_append] at hlen
          have hv0 := ihv e.2 (entriesTailToks es' ++ rest) (by omega)
          have hes := ihe es' rest (by omega)
          simp only [List.cons_append, List.append_assoc] at hv0 ⊢
          simp [parseVal, hv0, hes]
    · intro vs rest hlen
      cases vs with
      | nil => simp [itemsTailToks, parseItemsTail]
      | cons v0 vs' =>
        rw [show itemsTailToks (v0 :: vs') =
          JTok.comma :: (dumpToks v0 ++ itemsTailToks vs') from rfl] at hlen ⊢
        simp only [List.length_cons, List.length_append] at hlen
        have hv0 := ihv v0 (itemsTailToks vs' ++ rest) (by omega)
        have hvs := ihi vs' rest (by omega)
        simp only [List.cons_append, List.append_assoc] at hv0 ⊢
        simp [parseItemsTail, hv0, hvs]
    · intro es rest hlen
      cases es with
      | nil => simp [entriesTailToks, parseEntriesTail]
      | cons e es' =>
        rw [show entriesTailToks (e :: es') =
          JTok.comma :: JTok.jstr e.1 :: JTok.colon ::
            (dumpToks e.2 ++ entriesTailToks es') from rfl] at hlen ⊢
        simp only [List.length_cons, List.length_append] at hlen
        have hv0 := ihv e.2 (entriesTailToks es' ++ rest) (by omega)
        have hes := ihe es' rest (by omega)
        simp only [List.cons_append, List.append_assoc] at hv0 ⊢
        simp [parseEntriesTail, hv0, hes]

theorem jloads_jdumps (v : PyVal) : jloads (jdumps v) = some v := by
  have h := (parse_dump_all ((dumpToks v).length + 1)).1 v [] (by omega)
  rw [List.append_nil] at h
  rw [jloads, jdumps, h]

/-! Characterization of the image associator. -/

theorem map_getD_range {α : Type} (l : List α) (d : α) :
    (List.range l.length).map (fun j => l.getD j d) = l := by
  induction l with
  | nil => simp
  | cons a rest ih =>
    rw [List.length_cons, List.range_succ_eq_map, List.map_cons, List.map_map]
    simp only [Function.comp_def, List.getD_cons_zero, List.getD_cons_succ]
    rw [ih]

theorem getD_set_self {α : Type} (l : List α) (i : Nat) (v d : α) (h : i < l.length) :
    (l.set i v).getD i d = v := by
  rw [List.getD_eq_getElem?_getD, List.getElem?_set]
  simp [h]

theorem getD_set_ne {α : Type} (l : List α) (i j : Nat) (v d : α) (h : i ≠ j) :
    (l.set i v).getD j d = l.getD j d := by
  rw [List.getD_eq_getElem?_getD, List.getElem?_set, if_neg h, ← List.getD_eq_getElem?_getD]

theorem extract_images_aux (ranges : List (Rat × Rat)) (imgs : List PdfImage)
    (acc : List (List String)) (hlen : acc.length = ranges.length) :
    imgs.foldl (addImage ranges) acc =
      (List.range ranges.length).map (fun j =>
        acc.getD j [] ++
          (imgs.filter (fun im => imgFirstIdx ranges im == some j)).map
            (fun im => dataUri im.payload)) := by
  induction imgs generalizing acc with
  | nil =>
    simp only [List.foldl_nil, List.filter_nil, List.map_nil, List.append_nil]
    rw [← hlen, map_getD_range]
  | cons im rest ih =>
    rw [List.foldl_cons]
    rcases hidx : imgFirstIdx ranges im with _ | idx
    · have hstep : addImage ranges acc im = acc := by
        rw [addImage, hidx]
      rw [hstep, ih acc hlen]
      apply List.map_congr_left
      intro j _
      rw [List.filter_cons]
      simp [hidx]
    · have hidxlt : idx < ranges.length := by
        rw [imgFirstIdx] at hidx
        rcases hr : im.rects.head? with _ | r
        · rw [hr] at hidx; simp at hidx
        · rw [hr] at hidx
          simp only at hidx
          exact (List.findIdx?_eq_some_iff_getElem.mp hidx).1
      have hstep : addImage ranges acc im =
          acc.set idx (acc.getD idx [] ++ [dataUri im.payload]) := by
        rw [addImage, hidx]
      rw [hstep, ih _ (by rw [List.length_set]; exact hlen)]
      apply List.map_congr_left
      intro j hj
      rw [List.filter_cons]
      by_cases hij : idx = j
      · subst hij
        rw [getD_set_self acc idx _ [] (by omega), if_pos (by simp [hidx])]
        simp
      · rw [getD_set_ne acc idx j _ [] hij, if_neg (by simp [hidx, hij])]

/-! Invariant lemmas for the question segmenter. -/

theorem appendBody_id (q : Question) (s : String) : (appendBody q s).id = q.id := by
  rw [appendBody]; split <;> rfl

theorem setOption_id (q : Question) (k v : String) : (setOption q k v).id = q.id := rfl

theorem appendOption_id (q : Question) (k s : String) : (appendOption q k s).id = q.id := rfl

theorem carryLine_id (q : Question) (s : String) : (carryLine q s).id = q.id := by
  rw [carryLine]
  rcases s.data.head? with _ | c
  · exact appendBody_id q s
  · simp only
    rcases optMapChar c with _ | k
    · simp only
      split
      · exact setOption_id ..
      · exact appendBody_id ..
    · exact setOption_id ..

theorem carryOver_id (expected : Nat) (q : Question) (lines : List Line) :
    ((carryOver expected q lines).1).id = q.id := by
  induction lines generalizing q with
  | nil => rfl
  | cons l rest ih =>
    rw [carryOver]
    split
    · rfl
    · rw [ih (carryLine q (pyStrip l.text))]
      exact carryLine_id ..

theorem seginv_fields (st2 st : SegState) (hq : st2.questions = st.questions)
    (he : st2.expected = st.expected) (hc : curIds st2.current = curIds st.current)
    (h : SegInv st) : SegInv st2 := by
  obtain ⟨hids, hexp⟩ := h
  exact ⟨by rw [hq, he, hc]; exact hids, by rw [he]; exact hexp⟩

theorem flushAt_ids (st : SegState) (ycut : Rat) (h : SegInv st) :
    (flushAt st ycut).questions.map Question.id = List.range' 1 (st.expected - 1) ∧
      (flushAt st ycut).expected = st.expected := by
  obtain ⟨hids, hexp⟩ := h
  rw [flushAt]
  rcases hc : st.current with _ | oq
  · rw [hc] at hids
    simp only [curIds, List.append_nil] at hids
    exact ⟨hids, rfl⟩
  · rw [hc] at hids
    simp only [curIds] at hids
    refine ⟨?_, rfl⟩
    show (st.questions ++ [oq.data]).map Question.id = List.range' 1 (st.expected - 1)
    rw [List.map_append, ← hids]
    rfl

theorem openNew_inv (st : SegState) (y0 bottom : Rat) (body : String)
    (h : SegInv st) : SegInv (openNew st st.expected y0 bottom body) := by
  have hexp := h.2
  obtain ⟨hq, he⟩ := flushAt_ids st y0 h
  have hrange : List.range' 1 (st.expected - 1) ++ [st.expected] =
      List.range' 1 (st.expected + 1 - 1) := by
    rw [show st.expected + 1 - 1 = (st.expected - 1) + 1 from by omega,
      List.range'_concat]
    simp only [one_mul]
    rw [show 1 + (st.expected - 1) = st.expected from by omega]
  refine ⟨?_, ?_⟩
  · simp only [openNew, curIds]
    rw [hq, he, hrange]
  · simp only [openNew]
    omega

theorem fallbackText_inv (st : SegState) (oq : OpenQ) (stripped : String)
    (hcur : st.current = some oq) (h : SegInv st) :
    SegInv (fallbackText st oq stripped) := by
  rw [fallbackText]
  split
  · refine seginv_fields _ st rfl rfl ?_ h
    simp [withCurrent, curIds, hcur, appendOption_id]
  · refine seginv_fields _ st rfl rfl ?_ h
    simp [withCurrent, curIds, hcur, appendBody_id]

theorem mainElse_inv (st : SegState) (stripped : String) (h : SegInv st) :
    SegInv (mainElse st stripped) := by
  rw [mainElse]
  split
  · exact h
  · rename_i oq hcur
    split
    · split
      · refine seginv_fields _ st rfl rfl ?_ h
        simp [withCurrent, curIds, hcur, setOption_id]
      · split
        · refine seginv_fields _ st rfl rfl ?_ h
          simp [withCurrent, curIds, hcur, setOption_id]
        · exact fallbackText_inv st oq stripped hcur h
    · exact fallbackText_inv st oq stripped hcur h

theorem processLine_inv (bottom : Rat) (st : SegState) (l : Line)
    (h : SegInv st) : SegInv (processLine bottom st l) := by
  rw [processLine]
  split
  · split
    · rename_i heq
      rw [heq]
      exact openNew_inv st l.y bottom "" h
    · split
      · rename_i oq hcur
        split
        · refine seginv_fields _ st rfl rfl ?_ h
          simp [withCurrent, curIds, hcur, appendOption_id]
        · refine seginv_fields _ st rfl rfl ?_ h
          simp [withCurrent, curIds, hcur, appendBody_id]
      · exact h
  · split
    · split
      · rename_i heq
        rw [heq]
        exact openNew_inv st l.y bottom _ h
      · exact mainElse_inv st _ h
    · exact mainElse_inv st _ h

theorem foldl_processLine_inv (bottom : Rat) (lines : List Line) (st : SegState)
    (h : SegInv st) : SegInv (lines.foldl (processLine bottom) st) := by
  induction lines generalizing st with
  | nil => exact h
  | cons l rest ih => exact ih _ (processLine_inv bottom st l h)

theorem attachImages_map_id (qs : List Question) (groups : List (List String)) :
    (attachImages qs groups).map Question.id = qs.map Question.id := by
  rw [attachImages]
  split
  · rfl
  · rw [List.map_append, List.map_map]
    have hzip : (((qs.drop (qs.length - groups.length)).zip groups).map
        (Question.id ∘ fun p => { p.1 with images := p.1.images ++ p.2 })) =
        (((qs.drop (qs.length - groups.length)).zip groups).map Prod.fst).map
          Question.id := by
      rw [List.map_map]
      apply List.map_congr_left
      intro p _
      rfl
    rw [hzip]
    rw [List.map_fst_zip _ _ (by rw [List.length_drop]; omega)]
    rw [← List.map_append, List.take_append_drop]

theorem dropLast_append_map_id (qs : List Question) (prev : Question)
    (hprev : qs.getLast? = some prev) (q2 : Question) (hid : q2.id = prev.id) :
    (qs.dropLast ++ [q2]).map Question.id = qs.map Question.id := by
  induction qs with
  | nil => simp at hprev
  | cons a rest ih =>
    cases rest with
    | nil =>
      simp only [List.getLast?_singleton, Option.some.injEq] at hprev
      subst hprev
      simp [hid]
    | cons b rest2 =>
      rw [List.getLast?_cons_cons] at hprev
      have h2 := ih hprev
      simp only [List.dropLast_cons₂, List.cons_append, List.map_cons, h2]

theorem carryPhase_map_id (acc : List Question × Nat) (lines : List Line) :
    (carryPhase acc lines).1.map Question.id = acc.1.map Question.id := by
  rw [carryPhase]
  split
  · rename_i prev hlast
    show (acc.1.dropLast ++ [(carryOver acc.2 prev lines).1]).map Question.id =
      acc.1.map Question.id
    exact dropLast_append_map_id acc.1 prev hlast _ (carryOver_id ..)
  · rfl

theorem flushPage_ids (st : SegState) (h : SegInv st) :
    (flushPage st).questions.map Question.id =
      List.range' 1 ((flushPage st).expected - 1) ∧ 1 ≤ (flushPage st).expected := by
  obtain ⟨hids, hexp⟩ := h
  rw [flushPage]
  split
  · rename_i oq hcur
    rw [hcur] at hids
    simp only [curIds] at hids
    refine ⟨?_, hexp⟩
    show (st.questions ++ [oq.data]).map Question.id = List.range' 1 (st.expected - 1)
    rw [List.map_append, ← hids]
    rfl
  · rename_i hcur
    rw [hcur] at hids
    simp only [curIds, List.append_nil] at hids
    exact ⟨hids, hexp⟩

theorem processPage_ids (acc : List Question × Nat) (pg : Page)
    (h1 : acc.1.map Question.id = List.range' 1 (acc.2 - 1)) (h2 : 1 ≤ acc.2) :
    (processPage acc pg).1.map Question.id =
      List.range' 1 ((processPage acc pg).2 - 1) ∧ 1 ≤ (processPage acc pg).2 := by
  have hst0 : SegInv ⟨(carryPhase acc (sortLines pg.lines)).1, acc.2, none, [], none⟩ := by
    constructor
    · show (carryPhase acc (sortLines pg.lines)).1.map Question.id ++ curIds none =
        List.range' 1 (acc.2 - 1)
      rw [carryPhase_map_id]
      simpa [curIds] using h1
    · exact h2
  have hfl := flushPage_ids _ (foldl_processLine_inv pg.bottom
    (carryPhase acc (sortLines pg.lines)).2
    ⟨(carryPhase acc (sortLines pg.lines)).1, acc.2, none, [], none⟩ hst0)
  constructor
  · show (attachImages (pageMainState acc pg).questions
      (extract_images pg.images (pageMainState acc pg).q_ranges)).map Question.id =
      List.range' 1 ((pageMainState acc pg).expected - 1)
    rw [attachImages_map_id]
    exact hfl.1
  · show 1 ≤ (pageMainState acc pg).expected
    exact hfl.2

theorem parse_questions_ids (doc : List Page) :
    ∃ e, (parse_questions doc).map Question.id = List.range' 1 (e - 1) ∧ 1 ≤ e ∧
      (doc.foldl processPage ([], 1)).2 = e := by
  rw [parse_questions]
  suffices h : ∀ (acc : List Question × Nat),
      acc.1.map Question.id = List.range' 1 (acc.2 - 1) → 1 ≤ acc.2 →
      (doc.foldl processPage acc).1.map Question.id =
        List.range' 1 ((doc.foldl processPage acc).2 - 1) ∧
        1 ≤ (doc.foldl processPage acc).2 by
    obtain ⟨ha, hb⟩ := h ([], 1) (by simp) (by omega)
    exact ⟨(doc.foldl processPage ([], 1)).2, ha, hb, rfl⟩
  induction doc with
  | nil => intro acc ha hb; exact ⟨ha, hb⟩
  | cons pg rest ih =>
    intro acc ha hb
    rw [List.foldl_cons]
    obtain ⟨ha2, hb2⟩ := processPage_ids acc pg ha hb
    exact ih _ ha2 hb2

/-! Lemmas about the extraction strategies. -/

theorem pickBest_nil_of_all (maps : List (List (String × String)))
    (h : ∀ m ∈ maps, m = []) : pickBest maps = [] := by
  rw [pickBest]
  induction maps with
  | nil => rfl
  | cons m rest ih =>
    rw [List.foldl_cons, h m (List.mem_cons_self m rest)]
    exact ih (fun m2 hm2 => h m2 (List.mem_cons_of_mem _ hm2))

theorem ansLetterChar_cases (c : Char) (h : ansLetterChar c = true) :
    c = 'A' ∨ c = 'B' ∨ c = 'C' ∨ c = 'D' ∨
    c = 'Ａ' ∨ c = 'Ｂ' ∨ c = 'Ｃ' ∨ c = 'Ｄ' := by
  rw [ansLetterChar] at h
  rcases Bool.or_eq_true .. |>.mp h with h2 | h2 <;>
    obtain ⟨ha, hb⟩ := Bool.and_eq_true_iff.mp h2
  · have ha2 : 65 ≤ c.toNat := of_decide_eq_true ha
    have hb2 : c.toNat ≤ 68 := of_decide_eq_true hb
    have : c.toNat = 65 ∨ c.toNat = 66 ∨ c.toNat = 67 ∨ c.toNat = 68 := by omega
    rcases this with h3 | h3 | h3 | h3
    · exact Or.inl (Char.ext (UInt32.ext h3))
    · exact Or.inr (Or.inl (Char.ext (UInt32.ext h3)))
    · exact Or.inr (Or.inr (Or.inl (Char.ext (UInt32.ext h3))))
    · exact Or.inr (Or.inr (Or.inr (Or.inl (Char.ext (UInt32.ext h3)))))
  · have ha2 : 65313 ≤ c.toNat := of_decide_eq_true ha
    have hb2 : c.toNat ≤ 65316 := of_decide_eq_true hb
    have : c.toNat = 65313 ∨ c.toNat = 65314 ∨ c.toNat = 65315 ∨ c.toNat = 65316 := by
      omega
    rcases this with h3 | h3 | h3 | h3
    · exact Or.inr (Or.inr (Or.inr (Or.inr (Or.inl (Char.ext (UInt32.ext h3))))))
    · exact Or.inr (Or.inr (Or.inr (Or.inr (Or.inr (Or.inl
        (Char.ext (UInt32.ext h3)))))))
    · exact Or.inr (Or.inr (Or.inr (Or.inr (Or.inr (Or.inr (Or.inl
        (Char.ext (UInt32.ext h3))))))))
    · exact Or.inr (Or.inr (Or.inr (Or.inr (Or.inr (Or.inr (Or.inr
        (Char.ext (UInt32.ext h3))))))))

theorem fallbackLetters_mem (md : String) (l : String) (hl : l ∈ fallbackLetters md) :
    l = "A" ∨ l = "B" ∨ l = "C" ∨ l = "D" := by
  rw [fallbackLetters] at hl
  obtain ⟨c, hc, rfl⟩ := List.mem_map.mp hl
  have hc2 := (List.mem_filter.mp hc).2
  rcases ansLetterChar_cases c hc2 with h | h | h | h | h | h | h | h <;> subst h <;> decide

theorem mem_of_getLast?_eq_some {α : Type} {l : List α} {a : α}
    (h : l.getLast? = some a) : a ∈ l := by
  have hx : a ∈ l.getLast? := by rw [h]; rfl
  obtain ⟨hne, ha⟩ := List.mem_getLast?_eq_getLast hx
  rw [ha]
  exact List.getLast_mem hne

theorem foldl_keys_iff
    (f : List (String × String) → List String → List (String × String))
    (P : List String → String → Prop)
    (hf : ∀ m cells k, k ∈ (f m cells).map Prod.fst ↔ k ∈ m.map Prod.fst ∨ P cells k)
    (rs : List (List String)) (acc : List (String × String)) (k : String) :
    k ∈ (rs.foldl f acc).map Prod.fst ↔
      k ∈ acc.map Prod.fst ∨ ∃ cells ∈ rs, P cells k := by
  induction rs generalizing acc with
  | nil => simp
  | cons cells rest ih =>
    rw [List.foldl_cons, ih, hf]
    constructor
    · rintro ((hm | hrow) | ⟨c2, hmem, hp⟩)
      · exact Or.inl hm
      · exact Or.inr ⟨cells, List.mem_cons_self .., hrow⟩
      · exact Or.inr ⟨c2, List.mem_cons_of_mem _ hmem, hp⟩
    · rintro (hm | ⟨c2, hmem, hp⟩)
      · exact Or.inl (Or.inl hm)
      · rcases List.mem_cons.mp hmem with rfl | hmem2
        · exact Or.inl (Or.inr hp)
        · exact Or.inr ⟨c2, hmem2, hp⟩

theorem ansRowStep_keys (m : List (String × String)) (cells : List String)
    (k : String) :
    k ∈ (ansRowStep m cells).map Prod.fst ↔
      k ∈ m.map Prod.fst ∨
      ∃ c0 c1 restc, cells = c0 :: c1 :: restc ∧
        pyStrip c0 = k ∧ pyIsDigit (pyStrip c0) = true ∧ pyStrip c1 ≠ "" := by
  rcases cells with _ | ⟨c0, _ | ⟨c1, restc⟩⟩
  · simp [ansRowStep]
  · simp [ansRowStep]
  · simp only [ansRowStep]
    split
    · rename_i hcond
      obtain ⟨hd, hv⟩ := Bool.and_eq_true_iff.mp hcond
      have hv2 : pyStrip c1 ≠ "" := by simpa using hv
      rw [mem_keys_dinsert]
      simp only [List.cons.injEq]
      constructor
      · rintro (rfl | hm)
        · exact Or.inr ⟨c0, c1, restc, ⟨rfl, rfl, rfl⟩, rfl, hd, hv2⟩
        · exact Or.inl hm
      · rintro (hm | ⟨c0x, c1x, restcx, ⟨he0, he1, he2⟩, hk, hdx, hvx⟩)
        · exact Or.inr hm
        · subst he0
          exact Or.inl hk.symm
    · rename_i hcond
      have hcond2 : ¬(pyIsDigit (pyStrip c0) = true ∧ pyStrip c1 ≠ "") := by
        rintro ⟨hd, hv⟩
        exact hcond (by simp [hd, hv])
      simp only [List.cons.injEq]
      constructor
      · intro hm
        exact Or.inl hm
      · rintro (hm | ⟨c0x, c1x, restcx, ⟨he0, he1, he2⟩, hk, hdx, hvx⟩)
        · exact hm
        · subst he0; subst he1
          exact absurd ⟨hdx, hvx⟩ hcond2

theorem modRowStep_keys (m : List (String × String)) (cells : List String)
    (k : String) :
    k ∈ (modRowStep m cells).map Prod.fst ↔
      k ∈ m.map Prod.fst ∨
      ∃ c0 c1 restc, cells = c0 :: c1 :: restc ∧
        pyStrip c0 = k ∧ pyIsDigit (pyStrip c0) = true ∧
        ∃ c ∈ c1 :: restc, pyStrip c ≠ "" := by
  rcases cells with _ | ⟨c0, _ | ⟨c1, restc⟩⟩
  · simp [modRowStep]
  · simp [modRowStep]
  · simp only [modRowStep]
    split
    · rename_i hd
      split
      · rename_i v hlast
        have hex : ∃ c ∈ c1 :: restc, pyStrip c ≠ "" := by
          have hvmem := mem_of_getLast?_eq_some hlast
          obtain ⟨hmem2, hne⟩ := List.mem_filter.mp hvmem
          obtain ⟨c, hcmem, rfl⟩ := List.mem_map.mp hmem2
          exact ⟨c, hcmem, by simpa using hne⟩
        rw [mem_keys_dinsert]
        simp only [List.cons.injEq]
        constructor
        · rintro (rfl | hm)
          · exact Or.inr ⟨c0, c1, restc, ⟨rfl, rfl, rfl⟩, rfl, hd, hex⟩
          · exact Or.inl hm
        · rintro (hm | ⟨c0x, c1x, restcx, ⟨he0, he1, he2⟩, hk, hdx, hvx⟩)
          · exact Or.inr hm
          · subst he0
            exact Or.inl hk.symm
      · rename_i hlast
        have hempty : ∀ c ∈ c1 :: restc, pyStrip c = "" := by
          intro c hcmem
          rw [List.getLast?_eq_none_iff, List.filter_eq_nil_iff] at hlast
          have := hlast (pyStrip c) (List.mem_map_of_mem pyStrip hcmem)
          simpa using this
        simp only [List.cons.injEq]
        constructor
        · intro hm
          exact Or.inl hm
        · rintro (hm | ⟨c0x, c1x, restcx, ⟨he0, he1, he2⟩, hk, hdx, c, hcmem, hcne⟩)
          · exact hm
          · subst he1; subst he2
            exact absurd (hempty c hcmem) hcne
    · rename_i hd
      simp only [List.cons.injEq]
      constructor
      · intro hm
        exact Or.inl hm
      · rintro (hm | ⟨c0x, c1x, restcx, ⟨he0, he1, he2⟩, hk, hdx, hvx⟩)
        · exact hm
        · subst he0
          exact absurd hdx (by simpa using hd)

/-! Lemmas about the reconciliation engine. -/

theorem lookup_pyDictUpdate_none :
    ∀ (upd base : List (String × String)) (k : String),
      base.lookup k = none → upd.lookup k = none →
      (pyDictUpdate base upd).lookup k = none
  | [], base, k, hb, _ => hb
  | (a, b) :: rest, base, k, hb, hu => by
    rw [List.lookup_cons] at hu
    cases hka : (k == a) with
    | true => rw [hka] at hu; exact absurd hu (by simp)
    | false =>
      rw [hka] at hu
      have hne : k ≠ a := beq_eq_false_iff_ne.mp hka
      have hstep : pyDictUpdate base ((a, b) :: rest) =
          pyDictUpdate (dinsert base a b) rest := by
        simp [pyDictUpdate]
      rw [hstep]
      exact lookup_pyDictUpdate_none rest (dinsert base a b) k
        (by rw [lookup_dinsert_ne base a b k hne]; exact hb) hu

theorem assignAnswersAux_head_missing (q0 : Question) (qrest : List Question)
    (mapping : List (String × String))
    (h : mapping.lookup (toString q0.id) = none) :
    assignAnswersAux (q0 :: qrest) mapping = (q0 :: qrest, false) := by
  rw [assignAnswersAux, h]

theorem finishCombine_fst (qs : List Question) (mapping : List (String × String))
    (subject source : String) :
    (finishCombine qs mapping subject source).1 = (assignAnswersAux qs mapping).1 := by
  simp only [finishCombine]
  split
  · rfl
  · split
    · rfl
    · split
      · split <;> rfl
      · rfl

theorem finishCombine_error_of_missing (qs : List Question)
    (mapping : List (String × String)) (subject source : String)
    (h : (assignAnswersAux qs mapping).2 = false) :
    (finishCombine qs mapping subject source).2 =
      Except.error "Missing answer for question" := by
  simp only [finishCombine]
  rw [if_pos (by simp [h])]

/-- C2: given N questions, `combine` resolves in this exact order: a valid
AnswerMap is used alone; otherwise a valid ModificationMap; otherwise, if
either map is non-empty, their merge with ModificationMap entries overriding
AnswerMap entries on overlapping ids is used and must be valid or the call
fails; if both maps are empty the call fails. -/
theorem claim_C2 (qs : List Question) (am mm : List (String × String))
    (subject source : String) :
    (is_valid_map am qs.length = true →
      combineMaps qs am mm subject source = finishCombine qs am subject source) ∧
    (is_valid_map am qs.length = false → is_valid_map mm qs.length = true →
      combineMaps qs am mm subject source = finishCombine qs mm subject source) ∧
    (is_valid_map am qs.length = false → is_valid_map mm qs.length = false →
      (am ≠ [] ∨ mm ≠ []) →
      (is_valid_map (pyDictUpdate am mm) qs.length = true →
        combineMaps qs am mm subject source =
          finishCombine qs (pyDictUpdate am mm) subject source) ∧
      (is_valid_map (pyDictUpdate am mm) qs.length = false →
        combineMaps qs am mm subject source =
          (qs, Except.error "Answer and modification mapping incomplete or invalid"))) ∧
    (am = [] → mm = [] →
      ∃ e, (combineMaps qs am mm subject source).2 = Except.error e) ∧
    ((mm.map Prod.fst).Nodup → ∀ key : String,
      (pyDictUpdate am mm).lookup key = (mm.lookup key).or (am.lookup key)) := by
  have hne_cond : ∀ {l : List (String × String)}, l ≠ [] → l.isEmpty = false := by
    intro l hl
    cases l with
    | nil => exact absurd rfl hl
    | cons a b => rfl
  refine ⟨?_, ?_, ?_, ?_, ?_⟩
  · intro h1
    simp [combineMaps, h1]
  · intro h1 h2
    simp [combineMaps, h1, h2]
  · intro h1 h2 h3
    have hcond : (!am.isEmpty || !mm.isEmpty) = true := by
      rcases h3 with h3 | h3 <;> simp [hne_cond h3]
    constructor
    · intro h4
      simp [combineMaps, h1, h2, hcond, h4]
    · intro h4
      simp [combineMaps, h1, h2, hcond, h4]
  · intro h1 h2
    subst h1; subst h2
    cases qs with
    | nil => exact ⟨"Combined output failed validation", rfl⟩
    | cons q0 qrest =>
      have h1 : is_valid_map [] (qrest.length + 1) = false := by
        simp [is_valid_map]
      refine ⟨"No analyzable tables in answer or modification PDFs", ?_⟩
      simp [combineMaps, h1]
  · intro hnd key
    exact lookup_pyDictUpdate am mm key hnd

/-- Witness for C2 at concrete inputs exercising each resolution branch. -/
theorem claim_C2_witness :
    (combineMaps exQs exAns exMod "S" "K" = finishCombine exQs exAns "S" "K") ∧
    (combineMaps exQs exMod exAns "S" "K" = finishCombine exQs exAns "S" "K") ∧
    (combineMaps exQs [("1", "A")] [("2", "B")] "S" "K" =
      finishCombine exQs (pyDictUpdate [("1", "A")] [("2", "B")]) "S" "K") ∧
    (∃ e, (combineMaps exQs [] [] "S" "K").2 = Except.error e) ∧
    (pyDictUpdate exAns exMod).lookup "2" = ((exMod.lookup "2").or (exAns.lookup "2")) :=
  ⟨(claim_C2 exQs exAns exMod "S" "K").1 (by decide),
   (claim_C2 exQs exMod exAns "S" "K").2.1 (by decide) (by decide),
   ((claim_C2 exQs [("1", "A")] [("2", "B")] "S" "K").2.2.1 (by decide) (by decide)
     (Or.inl (by decide))).1 (by decide),
   (claim_C2 exQs [] [] "S" "K").2.2.2.1 rfl rfl,
   (claim_C2 exQs exAns exMod "S" "K").2.2.2.2 (by decide) "2"⟩

/-- C3 counterexample: with two questions and the mapping
`{"1": "A", "3": "B"}` (which passes the validity predicate), `combine` fails,
yet question 1's `answer` field has been mutated to `"A"` — the claim that no
Question is modified on failure is false on the code. -/
theorem claim_C3_counterexample :
    (combineMaps exQs exAnsGap [] "S" "K").2 =
      Except.error "Missing answer for question" ∧
    (combineMaps exQs exAnsGap [] "S" "K").1 ≠ exQs ∧
    ((combineMaps exQs exAnsGap [] "S" "K").1.head?.map Question.answer) =
      some (some "A") := by
  refine ⟨rfl, by decide, by decide⟩

/-- C3 amended: whenever `combine` fails no output is produced, and the
question list is unchanged when the failure happens during mapping selection,
or when the first question's id is covered by neither mapping (in particular
when the selected mapping's keys avoid all question ids); in general the
post-state is the original list or the assignment loop's output under one of
the three candidate mappings, which mutates exactly the prefix before the
first uncovered id. -/
theorem claim_C3 (qs : List Question) (am mm : List (String × String))
    (subject source : String) :
    (is_valid_map am qs.length = false → is_valid_map mm qs.length = false →
      is_valid_map (pyDictUpdate am mm) qs.length = false →
      (combineMaps qs am mm subject source).1 = qs ∧
      ∃ e, (combineMaps qs am mm subject source).2 = Except.error e) ∧
    (∀ q0 qrest, qs = q0 :: qrest →
      am.lookup (toString q0.id) = none → mm.lookup (toString q0.id) = none →
      (combineMaps qs am mm subject source).1 = qs ∧
      ∃ e, (combineMaps qs am mm subject source).2 = Except.error e) ∧
    ((combineMaps qs am mm subject source).1 = qs ∨
      (combineMaps qs am mm subject source).1 = (assignAnswersAux qs am).1 ∨
      (combineMaps qs am mm subject source).1 = (assignAnswersAux qs mm).1 ∨
      (combineMaps qs am mm subject source).1 =
        (assignAnswersAux qs (pyDictUpdate am mm)).1) := by
  refine ⟨?_, ?_, ?_⟩
  · intro h1 h2 h3
    cases hcond : (!am.isEmpty || !mm.isEmpty) with
    | true => simp [combineMaps, h1, h2, h3, hcond]
    | false => simp [combineMaps, h1, h2, h3, hcond]
  · intro q0 qrest hqs ham hmm
    subst hqs
    have hmerged : (pyDictUpdate am mm).lookup (toString q0.id) = none :=
      lookup_pyDictUpdate_none mm am _ ham hmm
    have hfin : ∀ M : List (String × String), M.lookup (toString q0.id) = none →
        (finishCombine (q0 :: qrest) M subject source).1 = q0 :: qrest ∧
        (finishCombine (q0 :: qrest) M subject source).2 =
          Except.error "Missing answer for question" := by
      intro M hM
      have hassign := assignAnswersAux_head_missing q0 qrest M hM
      exact ⟨by rw [finishCombine_fst, hassign],
        finishCombine_error_of_missing _ _ _ _ (by rw [hassign])⟩
    cases h1 : is_valid_map am (q0 :: qrest).length with
    | true =>
      rw [List.length_cons] at h1
      have := hfin am ham
      refine ⟨?_, "Missing answer for question", ?_⟩ <;>
        simp [combineMaps, h1, this.1, this.2]
    | false =>
      rw [List.length_cons] at h1
      cases h2 : is_valid_map mm (q0 :: qrest).length with
      | true =>
        rw [List.length_cons] at h2
        have := hfin mm hmm
        refine ⟨?_, "Missing answer for question", ?_⟩ <;>
          simp [combineMaps, h1, h2, this.1, this.2]
      | false =>
        rw [List.length_cons] at h2
        cases hcond : (!am.isEmpty || !mm.isEmpty) with
        | true =>
          cases h4 : is_valid_map (pyDictUpdate am mm) (q0 :: qrest).length with
          | true =>
            rw [List.length_cons] at h4
            have := hfin (pyDictUpdate am mm) hmerged
            refine ⟨?_, "Missing answer for question", ?_⟩ <;>
              simp [combineMaps, h1, h2, hcond, h4, this.1, this.2]
          | false =>
            rw [List.length_cons] at h4
            refine ⟨?_, "Answer and modification mapping incomplete or invalid", ?_⟩ <;>
              simp [combineMaps, h1, h2, hcond, h4]
        | false =>
          refine ⟨?_, "No analyzable tables in answer or modification PDFs", ?_⟩ <;>
            simp [combineMaps, h1, h2, hcond]
  · cases h1 : is_valid_map am qs.length with
    | true =>
      right; left
      simp [combineMaps, h1, finishCombine_fst]
    | false =>
      cases h2 : is_valid_map mm qs.length with
      | true =>
        right; right; left
        simp [combineMaps, h1, h2, finishCombine_fst]
      | false =>
        cases hcond : (!am.isEmpty || !mm.isEmpty) with
        | true =>
          cases h4 : is_valid_map (pyDictUpdate am mm) qs.length with
          | true =>
            right; right; right
            simp [combineMaps, h1, h2, hcond, h4, finishCombine_fst]
          | false =>
            left
            simp [combineMaps, h1, h2, hcond, h4]
        | false =>
          left
          simp [combineMaps, h1, h2, hcond]

/-- Witness for the amended C3 at concrete inputs: invalid selection leaves
the questions unchanged, and a mapping covering no id of the first question
mutates nothing. -/
theorem claim_C3_witness :
    ((combineMaps exQs [("1", "E")] [] "S" "K").1 = exQs ∧
      ∃ e, (combineMaps exQs [("1", "E")] [] "S" "K").2 = Except.error e) ∧
    ((combineMaps exQs [("7", "A"), ("8", "B")] [] "S" "K").1 = exQs ∧
      ∃ e, (combineMaps exQs [("7", "A"), ("8", "B")] [] "S" "K").2 =
        Except.error e) :=
  ⟨(claim_C3 exQs [("1", "E")] [] "S" "K").1 (by decide) (by decide) (by decide),
   (claim_C3 exQs [("7", "A"), ("8", "B")] [] "S" "K").2.1
     ⟨1, "q1", [], [], none⟩ [⟨2, "q2", [], [], none⟩] (by decide)
     (by decide) (by decide)⟩

theorem isEmpty_false_of_ne_nil {α : Type} {l : List α} (h : l ≠ []) :
    l.isEmpty = false := by
  cases l with
  | nil => exact absurd rfl h
  | cons a b => rfl

/-- C4 counterexample: on the claim's exact input the code returns
`{"2": "B"}`, not `{"1": "A", "2": "B"}` — the first row of a table run is
skipped unconditionally, even when it is a data row. -/
theorem claim_C4_counterexample :
    parse_answer_map "| 1 | A |\n| 2 | B |" = [("2", "B")] ∧
    (parse_answer_map "| 1 | A |\n| 2 | B |").lookup "1" = none := by
  exact ⟨by decide, by decide⟩

/-- C4 amended: `extractAnswers("| 1 | A |\n| 2 | B |")` yields `{"2": "B"}`;
the first row of every run is dropped as a header regardless of its content,
and with an explicit header row both data rows are extracted, the second
cell (normalized) becoming the letter. -/
theorem claim_C4 :
    parse_answer_map "| 1 | A |\n| 2 | B |" = [("2", "B")] ∧
    parse_answer_map "| # | Ans |\n| 1 | A |\n| 2 | B |" = [("1", "A"), ("2", "B")] ∧
    parse_answer_map "| # | Ans |\n| 1 | Ａ |" = [("1", "A")] ∧
    (∀ (r r2 : List String) (rows : List (List String)),
      tableToAnsMap (r :: rows) = tableToAnsMap (r2 :: rows)) := by
  exact ⟨by decide, by decide, by decide, fun r r2 rows => rfl⟩

/-- C5 counterexample: the positional fallback's scan does not match the
private-use-area glyphs: `ansLetterChar` rejects U+E18C even though OPT_MAP
normalizes it to `"A"`, so on a text consisting of that one glyph (and no
table) the code returns the empty mapping, not `{"1": "A"}` as the claim
implies. -/
theorem claim_C5_counterexample :
    optMapGet "" = "A" ∧
    ansLetterChar '' = false ∧
    extract_md_tables "" = [] ∧
    parse_answer_map "" = [] ∧
    parse_answer_map "" ≠ [("1", "A")] := by
  exact ⟨by decide, by decide, by decide, by decide, by decide⟩

/-- C5 amended: when no table run yields any entries, the fallback scans the
whole text in reading order for ASCII `A`-`D` and full-width `Ａ`-`Ｄ` only
(not the private-use glyphs), normalizes them, and assigns them sequentially
to ids "1", "2", ... in order of appearance; in particular, when the scan
finds no letter at all, the result is the empty mapping. -/
theorem claim_C5 (md : String)
    (h : ∀ t ∈ extract_md_tables md, tableToAnsMap t = []) :
    (parse_answer_map md).map Prod.snd = fallbackLetters md ∧
    (parse_answer_map md).map Prod.fst =
      (List.range (fallbackLetters md).length).map (fun i => toString (i + 1)) ∧
    (∀ l ∈ fallbackLetters md, l = "A" ∨ l = "B" ∨ l = "C" ∨ l = "D") ∧
    (fallbackLetters md = [] → parse_answer_map md = []) := by
  have hnil : pickBest ((extract_md_tables md).map tableToAnsMap) = [] := by
    refine pickBest_nil_of_all _ ?_
    intro m hm
    obtain ⟨t, ht, rfl⟩ := List.mem_map.mp hm
    exact h t ht
  have hmap : parse_answer_map md =
      (fallbackLetters md).enum.map (fun p => (toString (p.1 + 1), p.2)) := by
    simp [parse_answer_map, hnil]
  refine ⟨?_, ?_, fun l hl => fallbackLetters_mem md l hl, fun h4 => by rw [hmap, h4]; rfl⟩
  · rw [hmap, List.map_map]
    have hcomp : (Prod.snd ∘ fun p : Nat × String => (toString (p.1 + 1), p.2)) =
        Prod.snd := funext fun p => rfl
    rw [hcomp, List.enum_map_snd]
  · rw [hmap, List.map_map]
    have hcomp : (Prod.fst ∘ fun p : Nat × String => (toString (p.1 + 1), p.2)) =
        ((fun i => toString (i + 1)) ∘ Prod.fst) := funext fun p => rfl
    rw [hcomp, ← List.map_map, List.enum_map_fst]

/-- Witness for the amended C5: the fallback on the claim's example text, and
the empty mapping on the text consisting of the private-use glyph U+E18C. -/
theorem claim_C5_witness :
    ((parse_answer_map "A B C").map Prod.snd = fallbackLetters "A B C" ∧
      (parse_answer_map "A B C").map Prod.fst =
        (List.range (fallbackLetters "A B C").length).map (fun i => toString (i + 1)) ∧
      ∀ l ∈ fallbackLetters "A B C", l = "A" ∨ l = "B" ∨ l = "C" ∨ l = "D") ∧
    parse_answer_map "" = [] :=
  ⟨⟨(claim_C5 "A B C" (by decide)).1, (claim_C5 "A B C" (by decide)).2.1,
    (claim_C5 "A B C" (by decide)).2.2.1⟩,
   (claim_C5 "" (by decide)).2.2.2 (by decide)⟩

/-- C9: when a table run yields entries, both extraction strategies return
the run mapping with strictly the most entries, an earlier run winning ties:
the result appears among the per-run mappings, no mapping is larger, and
every earlier mapping is strictly smaller. -/
theorem claim_C9 (md : String) :
    (pickBest ((extract_md_tables md).map tableToAnsMap) ≠ [] →
      parse_answer_map md = pickBest ((extract_md_tables md).map tableToAnsMap) ∧
      ∃ i : Nat,
        ((extract_md_tables md).map tableToAnsMap)[i]? = some (parse_answer_map md) ∧
        (∀ (j : Nat) (mj : List (String × String)),
          ((extract_md_tables md).map tableToAnsMap)[j]? = some mj →
          mj.length ≤ (parse_answer_map md).length) ∧
        (∀ (j : Nat) (mj : List (String × String)), j < i →
          ((extract_md_tables md).map tableToAnsMap)[j]? = some mj →
          mj.length < (parse_answer_map md).length)) ∧
    (pickBest ((extract_md_tables md).map tableToModMap) ≠ [] →
      parse_mod_map md = pickBest ((extract_md_tables md).map tableToModMap) ∧
      ∃ i : Nat,
        ((extract_md_tables md).map tableToModMap)[i]? = some (parse_mod_map md) ∧
        (∀ (j : Nat) (mj : List (String × String)),
          ((extract_md_tables md).map tableToModMap)[j]? = some mj →
          mj.length ≤ (parse_mod_map md).length) ∧
        (∀ (j : Nat) (mj : List (String × String)), j < i →
          ((extract_md_tables md).map tableToModMap)[j]? = some mj →
          mj.length < (parse_mod_map md).length)) := by
  constructor
  · intro h
    have hmap : parse_answer_map md =
        pickBest ((extract_md_tables md).map tableToAnsMap) := by
      simp [parse_answer_map, isEmpty_false_of_ne_nil h]
    rw [hmap]
    exact ⟨rfl, pickBest_spec _ h⟩
  · intro h
    have hmap : parse_mod_map md =
        pickBest ((extract_md_tables md).map tableToModMap) := by
      simp [parse_mod_map, isEmpty_false_of_ne_nil h]
    rw [hmap]
    exact ⟨rfl, pickBest_spec _ h⟩

/-- Witness for C9 on markdown with two table runs of sizes 1 and 2. -/
theorem claim_C9_witness :
    (parse_answer_map exTwoTables =
      pickBest ((extract_md_tables exTwoTables).map tableToAnsMap) ∧
      ∃ i : Nat,
        ((extract_md_tables exTwoTables).map tableToAnsMap)[i]? =
          some (parse_answer_map exTwoTables) ∧
        (∀ (j : Nat) (mj : List (String × String)),
          ((extract_md_tables exTwoTables).map tableToAnsMap)[j]? = some mj →
          mj.length ≤ (parse_answer_map exTwoTables).length) ∧
        (∀ (j : Nat) (mj : List (String × String)), j < i →
          ((extract_md_tables exTwoTables).map tableToAnsMap)[j]? = some mj →
          mj.length < (parse_answer_map exTwoTables).length)) ∧
    (parse_mod_map exTwoTables =
      pickBest ((extract_md_tables exTwoTables).map tableToModMap) ∧
      ∃ i : Nat,
        ((extract_md_tables exTwoTables).map tableToModMap)[i]? =
          some (parse_mod_map exTwoTables) ∧
        (∀ (j : Nat) (mj : List (String × String)),
          ((extract_md_tables exTwoTables).map tableToModMap)[j]? = some mj →
          mj.length ≤ (parse_mod_map exTwoTables).length) ∧
        (∀ (j : Nat) (mj : List (String × String)), j < i →
          ((extract_md_tables exTwoTables).map tableToModMap)[j]? = some mj →
          mj.length < (parse_mod_map exTwoTables).length)) :=
  ⟨(claim_C9 exTwoTables).1 (by decide), (claim_C9 exTwoTables).2 (by decide)⟩

/-- C10 counterexample: a data row whose first cell is the full-width digit
`１` does contribute an entry (Python's `isdigit` accepts it), so the claim
that only ASCII digit strings become keys is false on the code. -/
theorem claim_C10_counterexample :
    parse_answer_map "| n | a |\n| １ | A |" = [("１", "A")] ∧
    ("１".data.all Char.isDigit) = false := by
  exact ⟨by decide, by decide⟩

/-- C10 amended: a data row contributes an entry exactly when its first cell
strips to a non-empty digit string in Python's sense (ASCII or full-width
digits) — that stripped string becoming the key — and, for the answer
strategy, its second cell is non-empty, or, for the modification strategy,
some later cell is non-empty; all other rows are silently skipped. -/
theorem claim_C10 (rows : List (List String)) (k : String) :
    (k ∈ (tableToAnsMap rows).map Prod.fst ↔
      ∃ cells ∈ rows.tail, ∃ c0 c1 restc, cells = c0 :: c1 :: restc ∧
        pyStrip c0 = k ∧ pyIsDigit (pyStrip c0) = true ∧ pyStrip c1 ≠ "") ∧
    (k ∈ (tableToModMap rows).map Prod.fst ↔
      ∃ cells ∈ rows.tail, ∃ c0 c1 restc, cells = c0 :: c1 :: restc ∧
        pyStrip c0 = k ∧ pyIsDigit (pyStrip c0) = true ∧
        ∃ c ∈ c1 :: restc, pyStrip c ≠ "") ∧
    pyIsDigit "１" = true ∧ ("１".data.all Char.isDigit) = false := by
  refine ⟨?_, ?_, by decide, by decide⟩
  · rw [tableToAnsMap, foldl_keys_iff ansRowStep
      (fun cells k => ∃ c0 c1 restc, cells = c0 :: c1 :: restc ∧
        pyStrip c0 = k ∧ pyIsDigit (pyStrip c0) = true ∧ pyStrip c1 ≠ "")
      ansRowStep_keys rows.tail [] k]
    simp
  · rw [tableToModMap, foldl_keys_iff modRowStep
      (fun cells k => ∃ c0 c1 restc, cells = c0 :: c1 :: restc ∧
        pyStrip c0 = k ∧ pyIsDigit (pyStrip c0) = true ∧
        ∃ c ∈ c1 :: restc, pyStrip c ≠ "")
      modRowStep_keys rows.tail [] k]
    simp

/-- Witness for the amended C10 at a concrete table. -/
theorem claim_C10_witness :
    ∃ cells ∈ ([["h", "h"], ["1", "A"]] : List (List String)).tail,
      ∃ c0 c1 restc, cells = c0 :: c1 :: restc ∧
        pyStrip c0 = "1" ∧ pyIsDigit (pyStrip c0) = true ∧ pyStrip c1 ≠ "" :=
  (claim_C10 [["h", "h"], ["1", "A"]] "1").1.mp (by decide)

/-! Characterization of the output validator. -/

theorem ne_nil_of_isEmpty_false {α : Type} {l : List α} (h : l.isEmpty = false) :
    l ≠ [] := by
  cases l with
  | nil => simp at h
  | cons a b => simp

theorem validQuestion_iff (q : PyVal) : validQuestion q = true ↔ QuestionSpec q := by
  cases q with
  | vStr s => simp [validQuestion, QuestionSpec]
  | vInt n => simp [validQuestion, QuestionSpec]
  | vList l => simp [validQuestion, QuestionSpec]
  | vDict es =>
    simp only [validQuestion]
    constructor
    · intro h
      simp only [Bool.and_eq_true] at h
      obtain ⟨⟨⟨⟨⟨⟨hid0, hans0⟩, hq0⟩, hid⟩, hans⟩, hopt⟩, himg⟩ := h
      refine ⟨es, rfl, ?_, ?_, ?_, ?_, ?_⟩
      · rcases hl : es.lookup "id" with _ | v
        · rw [hl] at hid; exact absurd hid (by simp)
        · rcases v with s | n | l | d
          · rw [hl] at hid; exact absurd hid (by simp)
          · exact ⟨n, rfl⟩
          · rw [hl] at hid; exact absurd hid (by simp)
          · rw [hl] at hid; exact absurd hid (by simp)
      · rcases hl : es.lookup "answer" with _ | v
        · rw [hl] at hans; exact absurd hans (by simp)
        · rcases v with a | n | l | d
          · rw [hl] at hans
            simp only [Bool.or_eq_true, beq_iff_eq] at hans
            exact ⟨a, rfl, by tauto⟩
          · rw [hl] at hans; exact absurd hans (by simp)
          · rw [hl] at hans; exact absurd hans (by simp)
          · rw [hl] at hans; exact absurd hans (by simp)
      · rcases hl : es.lookup "question" with _ | v
        · rw [hl] at hq0; exact absurd hq0 (by simp)
        · exact ⟨v, rfl⟩
      · intro ov hov
        rw [hov] at hopt
        rcases ov with s | n | l | d
        · exact absurd hopt (by simp)
        · exact absurd hopt (by simp)
        · exact absurd hopt (by simp)
        · exact ⟨d, rfl⟩
      · intro iv hiv
        rw [hiv] at himg
        rcases iv with s | n | l | d
        · exact absurd himg (by simp)
        · exact absurd himg (by simp)
        · exact ⟨l, rfl⟩
        · exact absurd himg (by simp)
    · rintro ⟨es2, heq, ⟨n, hid⟩, ⟨a, hans, ha⟩, ⟨qv, hq⟩, hopt, himg⟩
      obtain rfl : es2 = es := by injection heq with h2; exact h2.symm
      simp only [Bool.and_eq_true]
      refine ⟨⟨⟨⟨⟨⟨?_, ?_⟩, ?_⟩, ?_⟩, ?_⟩, ?_⟩, ?_⟩
      · rw [hid]; rfl
      · rw [hans]; rfl
      · rw [hq]; rfl
      · rw [hid]
      · rw [hans]
        rcases ha with rfl | rfl | rfl | rfl <;> rfl
      · cases hl : List.lookup "options" es2 with
        | none => rfl
        | some v =>
          obtain ⟨oes, rfl⟩ := hopt v hl
          rfl
      · cases hl : List.lookup "images" es2 with
        | none => rfl
        | some v =>
          obtain ⟨its, rfl⟩ := himg v hl
          rfl

theorem sourceEntryOk_iff (s : String × PyVal) :
    sourceEntryOk s = true ↔
      ∃ qlist, s.2 = PyVal.vList qlist ∧ qlist ≠ [] ∧
        ∀ q ∈ qlist, QuestionSpec q := by
  obtain ⟨sname, sval⟩ := s
  simp only [sourceEntryOk]
  rcases sval with s2 | n | l | d
  · simp
  · simp
  · simp only [Bool.and_eq_true, List.all_eq_true]
    constructor
    · rintro ⟨hne, hall⟩
      exact ⟨l, rfl, ne_nil_of_isEmpty_false (by simpa using hne),
        fun q hq => (validQuestion_iff q).mp (hall q hq)⟩
    · rintro ⟨ql, heq, hne, hall⟩
      obtain rfl : ql = l := by injection heq with h2; exact h2.symm
      exact ⟨by simp [isEmpty_false_of_ne_nil hne],
        fun q hq => (validQuestion_iff q).mpr (hall q hq)⟩
  · simp

theorem subjectEntryOk_iff (p : String × PyVal) :
    subjectEntryOk p = true ↔
      ∃ srcs, p.2 = PyVal.vDict srcs ∧ srcs ≠ [] ∧
        ∀ s ∈ srcs, ∃ qlist, s.2 = PyVal.vList qlist ∧ qlist ≠ [] ∧
          ∀ q ∈ qlist, QuestionSpec q := by
  obtain ⟨pname, pval⟩ := p
  simp only [subjectEntryOk]
  rcases pval with s2 | n | l | d
  · simp
  · simp
  · simp
  · simp only [Bool.and_eq_true, List.all_eq_true]
    constructor
    · rintro ⟨hne, hall⟩
      exact ⟨d, rfl, ne_nil_of_isEmpty_false (by simpa using hne),
        fun s hs => (sourceEntryOk_iff s).mp (hall s hs)⟩
    · rintro ⟨srcs, heq, hne, hall⟩
      obtain rfl : srcs = d := by injection heq with h2; exact h2.symm
      exact ⟨by simp [isEmpty_false_of_ne_nil hne],
        fun s hs => (sourceEntryOk_iff s).mpr (hall s hs)⟩

/-- C6 counterexample: the code accepts an output whose question has an
integer `question` value — the type of `question` is never checked — so the
claim that such an output is rejected is false on the code. -/
theorem claim_C6_counterexample :
    validate_output_structure exBadOut = true ∧
    validQuestion (PyVal.vDict [("id", PyVal.vInt 1), ("question", PyVal.vInt 42),
      ("answer", PyVal.vStr "A")]) = true ∧
    (∀ s : String, PyVal.vInt 42 ≠ PyVal.vStr s) := by
  refine ⟨rfl, rfl, fun s h => by injection h⟩

/-- C6 amended: `validate` returns true exactly when the subjects mapping is
non-empty, every source mapping is non-empty, every question list is
non-empty, and every question has an integer `id`, a present `question` key
(of unchecked type), an `answer` among the four letters, a dict `options`
when present and a list `images` when present; in particular a question with
a missing `answer` or an out-of-domain `answer` is rejected. -/
theorem claim_C6 :
    (∀ v : PyVal, validate_output_structure v = true ↔ ValidOutSpec v) ∧
    validate_output_structure (buildOut "S" "K" [⟨1, "q1", [], [], none⟩]) = false ∧
    validate_output_structure (buildOut "S" "K" [⟨1, "q1", [], [], some "E"⟩]) = false := by
  refine ⟨?_, rfl, rfl⟩
  intro v
  cases v with
  | vStr s => simp [validate_output_structure, ValidOutSpec]
  | vInt n => simp [validate_output_structure, ValidOutSpec]
  | vList l => simp [validate_output_structure, ValidOutSpec]
  | vDict top =>
    simp only [validate_output_structure]
    split
    · rename_i subjects hs
      simp only [Bool.and_eq_true, List.all_eq_true]
      constructor
      · rintro ⟨hne, hall⟩
        exact ⟨top, subjects, rfl, hs, ne_nil_of_isEmpty_false (by simpa using hne),
          fun p hp => (subjectEntryOk_iff p).mp (hall p hp)⟩
      · rintro ⟨top2, subjects2, heq, hs2, hne, hall⟩
        obtain rfl : top2 = top := by injection heq with h2; exact h2.symm
        rw [hs] at hs2
        obtain rfl : subjects2 = subjects := by
          injection hs2 with h2
          injection h2 with h3
          exact h3.symm
        exact ⟨by simp [isEmpty_false_of_ne_nil hne],
          fun p hp => (subjectEntryOk_iff p).mpr (hall p hp)⟩
    · rename_i hother
      constructor
      · intro h
        exact absurd h (by simp)
      · rintro ⟨top2, subjects2, heq, hs2, hne, hall⟩
        obtain rfl : top2 = top := by injection heq with h2; exact h2.symm
        exact absurd hs2 (hother subjects2)

/-- Witness for the amended C6: a concrete valid output satisfies the
specification-level reading. -/
theorem claim_C6_witness : ValidOutSpec exOut :=
  (claim_C6.1 exOut).mp (by decide)

theorem getD_replicate_nil (n j : Nat) :
    (List.replicate n ([] : List String)).getD j [] = [] := by
  rw [List.getD_eq_getElem?_getD, List.getElem?_replicate]
  split <;> rfl

/-- C7: the image associator assigns each image whose first rectangle's
vertical center lies in some range to exactly the first such range, in
encounter order; images matching no range (or having no rectangle) appear in
no group, and a center on a shared boundary goes deterministically to the
first matching range, since the chosen index is the first one whose closed
interval contains the center. -/
theorem claim_C7 :
    (∀ (imgs : List PdfImage) (q_ranges : List (Rat × Rat)),
      extract_images imgs q_ranges =
        (List.range q_ranges.length).map (fun j =>
          (imgs.filter (fun im => imgFirstIdx q_ranges im == some j)).map
            (fun im => dataUri im.payload))) ∧
    (∀ (q_ranges : List (Rat × Rat)) (im : PdfImage) (j : Nat),
      imgFirstIdx q_ranges im = some j →
      ∃ r, im.rects.head? = some r ∧
        ∃ hj : j < q_ranges.length,
          ((q_ranges.get ⟨j, hj⟩).1 ≤ (r.1 + r.2) / 2 ∧
            (r.1 + r.2) / 2 ≤ (q_ranges.get ⟨j, hj⟩).2) ∧
          ∀ (i : Nat) (hi : i < j),
            ¬((q_ranges.get ⟨i, by omega⟩).1 ≤ (r.1 + r.2) / 2 ∧
              (r.1 + r.2) / 2 ≤ (q_ranges.get ⟨i, by omega⟩).2)) := by
  constructor
  · intro imgs q_ranges
    rw [extract_images,
      extract_images_aux q_ranges imgs (List.replicate q_ranges.length [])
        (by rw [List.length_replicate])]
    apply List.map_congr_left
    intro j _
    rw [getD_replicate_nil, List.nil_append]
  · intro q_ranges im j h
    rw [imgFirstIdx] at h
    cases hr : im.rects.head? with
    | none => rw [hr] at h; exact absurd h (by simp)
    | some r =>
      rw [hr] at h
      simp only at h
      obtain ⟨hj, hp, hbefore⟩ := List.findIdx?_eq_some_iff_getElem.mp h
      refine ⟨r, rfl, hj, ?_, ?_⟩
      · obtain ⟨h1, h2⟩ := Bool.and_eq_true_iff.mp hp
        exact ⟨of_decide_eq_true h1, of_decide_eq_true h2⟩
      · intro i hi hcontra
        apply hbefore i hi
        simp only [Bool.and_eq_true, decide_eq_true_eq]
        exact hcontra

/-- Witness for C7: the associator on concrete images and ranges, and a
boundary image whose center 40 lies on the shared edge of both ranges and is
assigned to the first. -/
theorem claim_C7_witness :
    (extract_images exImgs exRanges =
      (List.range exRanges.length).map (fun j =>
        (exImgs.filter (fun im => imgFirstIdx exRanges im == some j)).map
          (fun im => dataUri im.payload))) ∧
    (∃ r, (PdfImage.mk [((40 : Rat), 40)] "BBB").rects.head? = some r ∧
      ∃ hj : 0 < exRanges.length,
        ((exRanges.get ⟨0, hj⟩).1 ≤ (r.1 + r.2) / 2 ∧
          (r.1 + r.2) / 2 ≤ (exRanges.get ⟨0, hj⟩).2) ∧
        ∀ (i : Nat) (hi : i < 0),
          ¬((exRanges.get ⟨i, by omega⟩).1 ≤ (r.1 + r.2) / 2 ∧
            (r.1 + r.2) / 2 ≤ (exRanges.get ⟨i, by omega⟩).2)) :=
  ⟨claim_C7.1 exImgs exRanges,
   claim_C7.2 exRanges ⟨[((40 : Rat), 40)], "BBB"⟩ 0 (by
    rw [imgFirstIdx]
    simp only [List.head?_cons, exRanges, List.findIdx?_cons]
    norm_num)⟩

/-- C8: serializing a CombinedOutput that passes the structural check and
reloading it yields the same value, which therefore still passes the check;
consequently the post-round-trip re-validation inside `combine` can never be
the failure that aborts the call. -/
theorem claim_C8 :
    (∀ out : PyVal, validate_output_structure out = true →
      ∃ reloaded, jloads (jdumps out) = some reloaded ∧ reloaded = out ∧
        validate_output_structure reloaded = true) ∧
    (∀ (qs : List Question) (am mm : List (String × String))
      (subject source : String),
      (combineMaps qs am mm subject source).2 ≠
        Except.error "Written output failed validation") := by
  constructor
  · intro out hv
    exact ⟨out, jloads_jdumps out, rfl, hv⟩
  · intro qs am mm subject source
    have hfin : ∀ M : List (String × String),
        (finishCombine qs M subject source).2 ≠
          Except.error "Written output failed validation" := by
      intro M
      simp only [finishCombine]
      split
      · simp
      · split
        · simp
        · rename_i hvalid2
          have hv : validate_output_structure
              (buildOut subject source (assignAnswersAux qs M).1) = true := by
            simpa using hvalid2
          rw [jloads_jdumps]
          simp [hv]
    cases h1 : is_valid_map am qs.length with
    | true => simpa [combineMaps, h1] using hfin am
    | false =>
      cases h2 : is_valid_map mm qs.length with
      | true => simpa [combineMaps, h1, h2] using hfin mm
      | false =>
        cases hcond : (!am.isEmpty || !mm.isEmpty) with
        | true =>
          cases h4 : is_valid_map (pyDictUpdate am mm) qs.length with
          | true => simpa [combineMaps, h1, h2, hcond, h4] using hfin (pyDictUpdate am mm)
          | false => simp [combineMaps, h1, h2, hcond, h4]
        | false => simp [combineMaps, h1, h2, hcond]

/-- Witness for C8 on a concrete valid output and concrete combine inputs. -/
theorem claim_C8_witness :
    (∃ reloaded, jloads (jdumps exOut) = some reloaded ∧ reloaded = exOut ∧
      validate_output_structure reloaded = true) ∧
    (combineMaps exQs exAns [] "S" "K").2 ≠
      Except.error "Written output failed validation" :=
  ⟨claim_C8.1 exOut (by decide), claim_C8.2 exQs exAns [] "S" "K"⟩

/-! Input-side marker-count lemmas for the segmentation loop. -/

theorem digit_no_qstart (s : String) (h : pyIsDigit s = true) :
    matchQuestionStart s = none := by
  rw [pyIsDigit, Bool.and_eq_true] at h
  obtain ⟨hne, hall⟩ := h
  have hdrop : s.data.dropWhile pyIsDigitChar = [] := by
    rw [List.dropWhile_eq_nil_iff]
    intro c hc
    exact (List.all_eq_true.mp hall) c hc
  rw [matchQuestionStart]
  simp only [hdrop]
  split <;> rfl

theorem isBreakLine_eq (e : Nat) (l : Line) :
    isBreakLine e (pyStrip l.text) = lineTriggers e l := by
  rw [isBreakLine, lineTriggers]
  by_cases hd : pyIsDigit (pyStrip l.text) = true
  · rw [if_pos hd, hd, digit_no_qstart _ hd]
    simp
  · rw [if_neg hd]
    have hd2 : pyIsDigit (pyStrip l.text) = false := by
      cases hb : pyIsDigit (pyStrip l.text)
      · rfl
      · exact absurd hb hd
    rw [hd2]
    simp

theorem flushAt_expected (st : SegState) (ycut : Rat) :
    (flushAt st ycut).expected = st.expected := by
  rw [flushAt]
  split <;> rfl

theorem openNew_expected (st : SegState) (qid : Nat) (y0 bottom : Rat)
    (body : String) : (openNew st qid y0 bottom body).expected = st.expected + 1 := by
  show (flushAt st y0).expected + 1 = st.expected + 1
  rw [flushAt_expected]

theorem fallbackText_expected (st : SegState) (oq : OpenQ) (stripped : String) :
    (fallbackText st oq stripped).expected = st.expected := by
  rw [fallbackText]
  split <;> rfl

theorem mainElse_expected (st : SegState) (stripped : String) :
    (mainElse st stripped).expected = st.expected := by
  rw [mainElse]
  split
  · rfl
  · rename_i oq hcur
    split
    · rename_i c hc
      split
      · rfl
      · split
        · rfl
        · exact fallbackText_expected st oq stripped
    · exact fallbackText_expected st oq stripped

theorem processLine_expected (bottom : Rat) (st : SegState) (l : Line) :
    (processLine bottom st l).expected = scanStep st.expected l := by
  rw [processLine, scanStep, lineTriggers]
  by_cases hd : pyIsDigit (pyStrip l.text) = true
  · rw [if_pos hd, if_pos hd]
    by_cases he : pyToNat (pyStrip l.text) = st.expected
    · rw [if_pos he, openNew_expected]
      have hbeq : (pyToNat (pyStrip l.text) == st.expected) = true := beq_iff_eq.mpr he
      rw [hbeq, if_pos rfl]
    · rw [if_neg he]
      have hbeq : (pyToNat (pyStrip l.text) == st.expected) = false := by
        simp [he]
      rw [hbeq, if_neg (by simp)]
      split
      · split
        · rfl
        · rfl
      · rfl
  · rw [if_neg hd, if_neg hd]
    split
    · rename_i qid body heq
      by_cases hq : qid = st.expected
      · rw [if_pos hq, openNew_expected]
        subst hq
        simp
      · rw [if_neg hq, mainElse_expected]
        have hbeq : (qid == st.expected) = false := by simp [hq]
        simp [hbeq]
    · rename_i heq
      rw [mainElse_expected]
      simp

theorem foldl_processLine_expected (bottom : Rat) (lines : List Line)
    (st : SegState) :
    (lines.foldl (processLine bottom) st).expected =
      lines.foldl scanStep st.expected := by
  induction lines generalizing st with
  | nil => rfl
  | cons l rest ih =>
    rw [List.foldl_cons, List.foldl_cons, ih, processLine_expected]

theorem flushPage_expected (st : SegState) : (flushPage st).expected = st.expected := by
  rw [flushPage]
  split <;> rfl

theorem carryOver_scan (expected : Nat) (q : Question) (lines : List Line) :
    ((carryOver expected q lines).2).foldl scanStep expected =
      lines.foldl scanStep expected := by
  induction lines generalizing q with
  | nil => rfl
  | cons l rest ih =>
    rw [carryOver]
    split
    · rfl
    · rename_i hbr
      rw [List.foldl_cons]
      have hstep : scanStep expected l = expected := by
        rw [scanStep, if_neg]
        rw [← isBreakLine_eq]
        exact hbr
      rw [hstep]
      exact ih (carryLine q (pyStrip l.text))

theorem carryPhase_scan (acc : List Question × Nat) (lines : List Line) :
    ((carryPhase acc lines).2).foldl scanStep acc.2 =
      lines.foldl scanStep acc.2 := by
  rw [carryPhase]
  split
  · rename_i prev hlast
    exact carryOver_scan acc.2 prev lines
  · rfl

theorem processPage_expected (acc : List Question × Nat) (pg : Page) :
    (processPage acc pg).2 = pageScan acc.2 pg := by
  show (pageMainState acc pg).expected = pageScan acc.2 pg
  rw [pageMainState, flushPage_expected, foldl_processLine_expected, pageScan]
  exact carryPhase_scan acc (sortLines pg.lines)

theorem foldl_processPage_expected (doc : List Page) (acc : List Question × Nat) :
    (doc.foldl processPage acc).2 = doc.foldl pageScan acc.2 := by
  induction doc generalizing acc with
  | nil => rfl
  | cons pg rest ih =>
    rw [List.foldl_cons, List.foldl_cons, ih, processPage_expected]

/-- C1: for every document, `parse_questions` returns exactly as many
questions as the document contains sequentially numbered markers
(`docQuestionCount`, the input-side count of markers `1`, `2`, ... firing in
reading order across all pages, so a document containing `N` sequentially
numbered questions yields exactly `N` Questions), with ids exactly `1 .. N`
in order, regardless of page boundaries; and a bare-integer line whose value
is not the expected next id never opens a new question: it leaves the flushed
questions, the expected id and the open question's id unchanged. -/
theorem claim_C1 :
    (∀ doc : List Page,
      (parse_questions doc).length = docQuestionCount doc ∧
      (parse_questions doc).map Question.id =
        List.range' 1 (docQuestionCount doc)) ∧
    (∀ (bottom : Rat) (st : SegState) (l : Line),
      pyIsDigit (pyStrip l.text) = true → pyToNat (pyStrip l.text) ≠ st.expected →
      (processLine bottom st l).questions = st.questions ∧
      (processLine bottom st l).expected = st.expected ∧
      curIds (processLine bottom st l).current = curIds st.current) := by
  constructor
  · intro doc
    obtain ⟨e, hids, he, hfold⟩ := parse_questions_ids doc
    have hscan : doc.foldl pageScan 1 = e := by
      have h := foldl_processPage_expected doc ([], 1)
      rw [hfold] at h
      exact h.symm
    have hcount : docQuestionCount doc = e - 1 := by
      rw [docQuestionCount, docExpected, hscan]
    have hlen : (parse_questions doc).length = e - 1 := by
      have h2 := congrArg List.length hids
      simpa using h2
    rw [hcount, hlen, hids]
    exact ⟨rfl, rfl⟩
  · intro bottom st l hdig hne
    rw [processLine, if_pos hdig, if_neg hne]
    split
    · rename_i oq hcur
      split
      · exact ⟨rfl, rfl, by simp [withCurrent, curIds, hcur, appendOption_id]⟩
      · exact ⟨rfl, rfl, by simp [withCurrent, curIds, hcur, appendBody_id]⟩
    · exact ⟨rfl, rfl, rfl⟩

/-- Witness for C1: the fixture document contains exactly 3 sequential
markers, and `parse_questions` returns exactly 3 questions with ids 1..3
across a page break; a bare `7` while question 3 is expected mutates no
segmentation state. -/
theorem claim_C1_witness :
    ((parse_questions exDoc).length = docQuestionCount exDoc ∧
      (parse_questions exDoc).map Question.id =
        List.range' 1 (docQuestionCount exDoc)) ∧
    docQuestionCount exDoc = 3 ∧
    (parse_questions exDoc).length = 3 ∧
    (parse_questions exDoc).map Question.id = [1, 2, 3] ∧
    ((processLine 100 exState exLine).questions = exState.questions ∧
      (processLine 100 exState exLine).expected = exState.expected ∧
      curIds (processLine 100 exState exLine).current = curIds exState.current) :=
  ⟨claim_C1.1 exDoc, by decide, by decide, by decide,
   claim_C1.2 100 exState exLine (by decide) (by decide)⟩


end PdfTool
